import Mathlib

/-!
Verification development for the multibot supervisor.

Shallow embedding of the core subsystems: plugin registry and dependency
resolution, token-bucket rate limiting, the token billing ledger, the hourly
statistics upsert and flush, the bot lifecycle state machine, and the webhook
secret verification. Store tables are modelled as association lists, machine
integers as Int/Nat, time as rationals, and fallible operations return
Except or an explicit error component.
-/

namespace Multibot

/-! ## Plugin registry (src/plugins/registry.py) -/

/-- A plugin class as the registry sees it: declared name, version and the
declared dependency names (PluginClass attributes in src/plugins/base.py). -/
structure PluginClass where
  name : String
  version : String
  dependencies : List String
  deriving DecidableEq

/-- The registry's internal dict, plugin name to plugin class, modelled as an
insertion-ordered association list with unique keys maintained by dictSet. -/
abbrev PluginRegistry := List (String × PluginClass)

/-- Python dict lookup: first (and only) binding of the key. -/
def dictGet (reg : PluginRegistry) (k : String) : Option PluginClass :=
  (reg.find? (fun p => p.1 == k)).map Prod.snd

/-- Python dict assignment: replace the binding when the key is present,
append a new binding otherwise. -/
def dictSet (reg : PluginRegistry) (k : String) (c : PluginClass) : PluginRegistry :=
  if reg.any (fun p => p.1 == k) then
    reg.map (fun p => if p.1 == k then (p.1, c) else p)
  else
    reg ++ [(k, c)]

/-- PluginRegistry.register: reject a class with an empty declared name,
otherwise store it under its name, silently replacing any existing class. -/
def register (reg : PluginRegistry) (c : PluginClass) : Except String PluginRegistry :=
  if c.name = "" then .error "Plugin class must have a name"
  else .ok (dictSet reg c.name c)

/-- Errors surfaced by dependency resolution: PluginNotFoundError from
get_plugin_class, ValueError for a circular dependency, and an out-of-fuel
marker for the embedding's fuelled recursion (proved unreachable below). -/
inductive ResolveErr
  | notFound (name : String)
  | cycle (name : String)
  | fuelOut
  deriving DecidableEq

instance exceptDecEq {E A : Type} [DecidableEq E] [DecidableEq A] :
    DecidableEq (Except E A) := fun x y =>
  match x, y with
  | .error a, .error b =>
    if h : a = b then .isTrue (by rw [h])
    else .isFalse (by intro hc; injection hc with h2; exact h h2)
  | .ok a, .ok b =>
    if h : a = b then .isTrue (by rw [h])
    else .isFalse (by intro hc; injection hc with h2; exact h h2)
  | .error a, .ok b => .isFalse (by intro hc; cases hc)
  | .ok a, .error b => .isFalse (by intro hc; cases hc)

/-- PluginRegistry.get_plugin_class: dict lookup, PluginNotFoundError when
the name is not registered. -/
def get_plugin_class (reg : PluginRegistry) (name : String) : Except ResolveErr PluginClass :=
  match dictGet reg name with
  | none => .error (.notFound name)
  | some c => .ok c

/-- The dependency lists of a registered plugin. -/
def lookupDeps (reg : PluginRegistry) (name : String) : Option (List String) :=
  (dictGet reg name).map PluginClass.dependencies

/-- State of the DFS in resolve_dependencies: the output list (the source's
resolved list, whose membership coincides with the seen set because both are
extended together) and the set of grey nodes (the visiting set). -/
structure RState where
  resolved : List String
  visiting : List String
  deriving DecidableEq

/-- One DFS pass of resolve_dependencies over a worklist of names, mirroring
both the inner loop over a plugin's dependencies and the outer loop over the
requested names (the source guards both with the same membership test).
Fuel only bounds the recursion depth; resolveFuel below is proved sufficient,
so the fuelOut branch is dead code at the call site. -/
def visitList (reg : PluginRegistry) : Nat → List String → RState → Except ResolveErr RState
  | 0, _, _ => .error .fuelOut
  | _ + 1, [], st => .ok st
  | fuel + 1, name :: rest, st =>
    if name ∈ st.resolved then visitList reg fuel rest st
    else if name ∈ st.visiting then .error (.cycle name)
    else
      match lookupDeps reg name with
      | none => .error (.notFound name)
      | some ds =>
        match visitList reg fuel ds { st with visiting := name :: st.visiting } with
        | .error e => .error e
        | .ok st2 =>
          visitList reg fuel rest
            { resolved := st2.resolved ++ [name], visiting := st2.visiting.erase name }

/-- Fuel that is large enough for every DFS of this registry and request
(proved sufficient below). -/
def resolveFuel (reg : PluginRegistry) (names : List String) : Nat :=
  names.length + 1 + (reg.length + 1) *
    ((names.length :: reg.map (fun p => p.2.dependencies.length)).foldr max 0 + 2)

/-- PluginRegistry.resolve_dependencies: DFS from the requested names,
returning the resolved list in completion order. -/
def resolve_dependencies (reg : PluginRegistry) (names : List String) :
    Except ResolveErr (List String) :=
  match visitList reg (resolveFuel reg names) names { resolved := [], visiting := [] } with
  | .error e => .error e
  | .ok st => .ok st.resolved

/-- One edge of the dependency graph: b is a declared dependency of a. -/
def DepEdge (reg : PluginRegistry) (a b : String) : Prop :=
  ∃ ds, lookupDeps reg a = some ds ∧ b ∈ ds

/-- Reachability from the requested list: the requested names themselves and
everything below them through declared dependencies. -/
inductive ReachableFrom (reg : PluginRegistry) (roots : List String) : String → Prop
  | root {n : String} : n ∈ roots → ReachableFrom reg roots n
  | step {m n : String} : ReachableFrom reg roots m → DepEdge reg m n → ReachableFrom reg roots n

/-- A nonempty dependency path; DepPath reg n n is a cycle through n. -/
inductive DepPath (reg : PluginRegistry) : String → String → Prop
  | single {a b : String} : DepEdge reg a b → DepPath reg a b
  | cons {a b c : String} : DepEdge reg a b → DepPath reg b c → DepPath reg a c

/-- The resolved-list correctness predicate: every listed plugin is
registered and each of its dependencies occurs at a strictly smaller index. -/
def TopoOrdered (reg : PluginRegistry) (l : List String) : Prop :=
  ∀ i (hi : i < l.length), ∃ ds, lookupDeps reg (l.get ⟨i, hi⟩) = some ds ∧
    ∀ d ∈ ds, ∃ j, ∃ hj : j < l.length, j < i ∧ l.get ⟨j, hj⟩ = d

/-- Decomposition form of the ordering predicate: wherever the list is split
around an element, that element is registered and its dependencies all occur
in the part before it. -/
def OrderedClosed (reg : PluginRegistry) (l : List String) : Prop :=
  ∀ l1 n l2, l = l1 ++ n :: l2 → ∃ ds, lookupDeps reg n = some ds ∧ ∀ d ∈ ds, d ∈ l1

/-! ## Rate limiting (src/middleware/rate_limit.py) -/

/-- RateLimitBucket: continuous-refill token bucket. tokens and rate are
floats in the source, modelled as rationals; burst is an int. -/
structure RateLimitBucket where
  tokens : ℚ
  last_update : ℚ
  rate : ℚ
  burst : Int
  deriving DecidableEq

/-- RateLimitBucket.consume at wall-clock time now: refill by elapsed time
capped at burst, then admit and decrement when at least req tokens remain. -/
def RateLimitBucket.consume (b : RateLimitBucket) (now : ℚ) (req : Nat) :
    RateLimitBucket × Bool :=
  let elapsed := now - b.last_update
  let t := min (b.burst : ℚ) (b.tokens + elapsed * b.rate)
  if (req : ℚ) ≤ t then
    ({ b with tokens := t - (req : ℚ), last_update := now }, true)
  else
    ({ b with tokens := t, last_update := now }, false)

/-- Run one bucket through a sequence of request instants (each request costs
one token, as the middleware always calls consume()); returns the final
bucket and the number of admitted requests. -/
def runBucket (b : RateLimitBucket) : List ℚ → RateLimitBucket × Nat
  | [] => (b, 0)
  | t :: ts =>
    let step := b.consume t 1
    let rest := runBucket step.1 ts
    (rest.1, (if step.2 then 1 else 0) + rest.2)

/-- A fresh bucket as _get_bucket creates it: full burst, clock at creation. -/
def freshBucket (rate : ℚ) (burst : Int) (now : ℚ) : RateLimitBucket :=
  { tokens := (burst : ℚ), last_update := now, rate := rate, burst := burst }

/-- A Telegram user as the middleware sees it. -/
structure TgUser where
  uid : Int
  deriving DecidableEq

/-- An incoming event: Message or CallbackQuery; from_user may be absent. -/
structure TgEvent where
  from_user : Option TgUser
  isMessage : Bool
  deriving DecidableEq

/-- RateLimitMiddleware state: per-user buckets plus the cleanup clock. -/
structure RateLimitMiddleware where
  rate : ℚ
  burst : Int
  buckets : List (Int × RateLimitBucket)
  cleanup_interval : ℚ
  last_cleanup : ℚ
  deriving DecidableEq

/-- _cleanup_old_buckets: at most every cleanup_interval, drop buckets whose
last_update is older than now minus the interval. -/
def cleanup_old_buckets (m : RateLimitMiddleware) (now : ℚ) : RateLimitMiddleware :=
  if now - m.last_cleanup < m.cleanup_interval then m
  else
    { m with
      buckets := m.buckets.filter
        (fun p => if p.2.last_update < now - m.cleanup_interval then false else true),
      last_cleanup := now }

/-- _get_bucket: fetch the user's bucket, creating a fresh one on first use. -/
def get_bucket (m : RateLimitMiddleware) (uid : Int) (now : ℚ) :
    RateLimitMiddleware × RateLimitBucket :=
  match (m.buckets.find? (fun p => p.1 == uid)).map Prod.snd with
  | some b => (m, b)
  | none =>
    let b := freshBucket m.rate m.burst now
    ({ m with buckets := m.buckets ++ [(uid, b)] }, b)

/-- Store back a user's (mutated in place in the source) bucket. -/
def setBucket (m : RateLimitMiddleware) (uid : Int) (b : RateLimitBucket) :
    RateLimitMiddleware :=
  { m with buckets := m.buckets.map (fun p => if p.1 == uid then (p.1, b) else p) }

/-- RateLimitMiddleware.__call__ at time now: periodic cleanup first; events
without a from_user go straight to the inner handler; otherwise consult the
user's bucket and drop the update when it rejects. The Bool is true exactly
when the inner handler is invoked. -/
def rlCall (m : RateLimitMiddleware) (e : TgEvent) (now : ℚ) :
    RateLimitMiddleware × Bool :=
  let m1 := cleanup_old_buckets m now
  match e.from_user with
  | none => (m1, true)
  | some u =>
    let got := get_bucket m1 u.uid now
    let step := got.2.consume now 1
    let m3 := setBucket got.1 u.uid step.1
    if step.2 then (m3, true) else (m3, false)

/-! ## Token billing ledger (src/billing/repository.py, token_manager.py) -/

/-- A user_tokens row: balance and lifetime totals. -/
structure UserToken where
  balance : Int
  total_purchased : Int
  total_consumed : Int
  deriving DecidableEq

/-- A token_transactions row as log_transaction writes it. -/
structure TokenTransaction where
  telegram_id : Int
  bot_id : String
  transaction_type : String
  amount : Int
  balance_after : Int
  reference_type : Option String
  reference_id : Option String
  deriving DecidableEq

/-- The billing tables touched by one store transaction: user_tokens keyed by
(telegram_id, bot_id) and the append-only token_transactions log. -/
structure BillingStore where
  tokens : List ((Int × String) × UserToken)
  transactions : List TokenTransaction
  deriving DecidableEq

/-- The user_tokens row for a key, if present. -/
def lookupToken (st : BillingStore) (tid : Int) (bid : String) : Option UserToken :=
  (st.tokens.find? (fun p => p.1 == (tid, bid))).map Prod.snd

/-- The conditional UPDATE of consume_tokens applied to the table rows. -/
def updateTokenRow (l : List ((Int × String) × UserToken)) (tid : Int) (bid : String)
    (ut : UserToken) : List ((Int × String) × UserToken) :=
  l.map (fun p => if p.1 == (tid, bid) then (p.1, ut) else p)

/-- TokenRepository.consume_tokens: ValueError when amount is not positive;
otherwise a single conditional update that debits balance and bumps
total_consumed only when the row exists with balance at least amount,
returning the new balance, or none when no row qualified. -/
def consume_tokens (st : BillingStore) (tid : Int) (bid : String) (amount : Int) :
    Except String (BillingStore × Option Int) :=
  if amount ≤ 0 then .error "Consume amount must be positive"
  else
    match lookupToken st tid bid with
    | some ut =>
      if amount ≤ ut.balance then
        let ut' : UserToken :=
          { balance := ut.balance - amount
            total_purchased := ut.total_purchased
            total_consumed := ut.total_consumed + amount }
        .ok ({ st with tokens := updateTokenRow st.tokens tid bid ut' }, some ut'.balance)
      else .ok (st, none)
    | none => .ok (st, none)

/-- TokenRepository.get_balance: the stored balance, none when no row. -/
def get_balance (st : BillingStore) (tid : Int) (bid : String) : Option Int :=
  (lookupToken st tid bid).map UserToken.balance

/-- The outcomes of TokenManager.consume: InsufficientTokensError or the
repository's ValueError for a non-positive amount. -/
inductive ConsumeErr
  | insufficientTokens (required : Int) (available : Int) (action : String)
  | valueErr (msg : String)
  deriving DecidableEq

/-- TokenManager.consume: try the atomic debit; on failure re-read the
balance and raise InsufficientTokens (the source's current_balance or 0);
on success append the consume transaction row in the same store transaction
and return the new balance. An error result models the exception
propagating out of the session, which rolls the transaction back. -/
def TokenManager.consume (st : BillingStore) (bot_id : String) (telegram_id : Int)
    (cost : Int) (action : String) : Except ConsumeErr (BillingStore × Int) :=
  match consume_tokens st telegram_id bot_id cost with
  | .error m => .error (.valueErr m)
  | .ok (st1, none) =>
    .error (.insufficientTokens cost ((get_balance st1 telegram_id bot_id).getD 0) action)
  | .ok (st1, some newBal) =>
    let tx : TokenTransaction :=
      { telegram_id := telegram_id
        bot_id := bot_id
        transaction_type := "consume"
        amount := -cost
        balance_after := newBal
        reference_type := some "action"
        reference_id := some action }
    .ok ({ st1 with transactions := st1.transactions ++ [tx] }, newBal)

/-! ## Hourly statistics upsert (src/stats/repository.py) -/

/-- A jsonb object of command counts. -/
abbrev JsonMap := List (String × Int)

/-- Value of a key in a jsonb object (first binding wins, as objects have
unique keys). -/
def jlookup (j : JsonMap) (k : String) : Option Int :=
  (j.find? (fun p => p.1 == k)).map Prod.snd

/-- Postgres jsonb concatenation of two objects: key-set union, the right
operand winning on common keys (it never sums values). -/
def jsonbConcat (a b : JsonMap) : JsonMap :=
  a.filter (fun p => !(b.any (fun q => q.1 == p.1))) ++ b

/-- SQL COALESCE of a nullable jsonb column with a jsonb default. -/
def jcoalesce (a : Option JsonMap) (d : JsonMap) : JsonMap :=
  match a with
  | some x => x
  | none => d

/-- A bot_statistics row; command_usage is a nullable jsonb column. -/
structure BotStatistics where
  message_count : Int
  command_count : Int
  callback_count : Int
  error_count : Int
  unique_users : Int
  new_users : Int
  command_usage : Option JsonMap
  deriving DecidableEq

/-- The bot_statistics table, keyed by (bot_id, hour_bucket). -/
abbrev StatsTable := List ((String × Nat) × BotStatistics)

/-- The bot_statistics row for a key, if present. -/
def lookupStats (tbl : StatsTable) (bot_id : String) (hour : Nat) : Option BotStatistics :=
  (tbl.find? (fun p => p.1 == (bot_id, hour))).map Prod.snd

/-- StatsRepository.upsert_hourly_stats: insert the incoming values for a new
key; on conflict add each counter delta, take the greatest unique_users, and
set command_usage to COALESCE(existing, empty) concatenated with
COALESCE(empty, empty) - exactly the on_conflict_do_update set_ clause of
the source, whose second operand is an empty jsonb literal. -/
def upsert_hourly_stats (tbl : StatsTable) (bot_id : String) (hour : Nat)
    (message_count command_count callback_count error_count unique_users new_users : Int)
    (command_usage : Option JsonMap) : StatsTable :=
  match lookupStats tbl bot_id hour with
  | none =>
    tbl ++ [((bot_id, hour),
      { message_count := message_count
        command_count := command_count
        callback_count := callback_count
        error_count := error_count
        unique_users := unique_users
        new_users := new_users
        command_usage := some (jcoalesce command_usage []) })]
  | some ex =>
    let ex' : BotStatistics :=
      { message_count := ex.message_count + message_count
        command_count := ex.command_count + command_count
        callback_count := ex.callback_count + callback_count
        error_count := ex.error_count + error_count
        unique_users := max ex.unique_users unique_users
        new_users := ex.new_users + new_users
        command_usage :=
          some (jsonbConcat (jcoalesce ex.command_usage []) (jcoalesce (some []) [])) }
    tbl.map (fun p => if p.1 == (bot_id, hour) then (p.1, ex') else p)

/-! ## Stats collector flush (src/stats/collector.py) -/

/-- The collector's in-memory hot counters, per bot id; command_usage is the
per-bot command Counter and seen_users the per-bot set of user ids (kept
duplicate-free by the record operations). -/
structure HotCounters where
  message_counts : List (String × Nat)
  command_counts : List (String × Nat)
  callback_counts : List (String × Nat)
  error_counts : List (String × Nat)
  new_user_counts : List (String × Nat)
  command_usage : List (String × List (String × Nat))
  seen_users : List (String × List Int)
  deriving DecidableEq

/-- One upsert issued by a flush for one bot. -/
structure UpsertCall where
  bot_id : String
  message_count : Nat
  command_count : Nat
  callback_count : Nat
  error_count : Nat
  unique_users : Nat
  new_users : Nat
  command_usage : List (String × Nat)
  deriving DecidableEq

/-- Counter lookup with Python Counter's implicit zero default. -/
def cGet (l : List (String × Nat)) (k : String) : Nat :=
  ((l.find? (fun p => p.1 == k)).map Prod.snd).getD 0

/-- Map lookup with an empty default (dict.get(bot_id, empty)). -/
def mGet {α : Type} (l : List (String × α)) (k : String) (d : α) : α :=
  ((l.find? (fun p => p.1 == k)).map Prod.snd).getD d

/-- The flush's early-exit test: the source checks only the message, command,
callback and error counters for activity. -/
def hasActivity (c : HotCounters) : Bool :=
  !(c.message_counts.isEmpty) || !(c.command_counts.isEmpty) ||
    !(c.callback_counts.isEmpty) || !(c.error_counts.isEmpty)

/-- The bot ids the flush iterates: union of the four counters' key sets. -/
def flushBotIds (c : HotCounters) : List String :=
  ((c.message_counts.map Prod.fst ++ c.command_counts.map Prod.fst ++
      c.callback_counts.map Prod.fst ++ c.error_counts.map Prod.fst)).dedup

/-- Empty hot counters, as after the clear calls. -/
def emptyCounters : HotCounters :=
  { message_counts := [], command_counts := [], callback_counts := []
    error_counts := [], new_user_counts := [], command_usage := [], seen_users := [] }

/-- The upsert a flush issues for one bot id. -/
def mkUpsert (c : HotCounters) (bid : String) : UpsertCall :=
  { bot_id := bid
    message_count := cGet c.message_counts bid
    command_count := cGet c.command_counts bid
    callback_count := cGet c.callback_counts bid
    error_count := cGet c.error_counts bid
    unique_users := (mGet c.seen_users bid []).length
    new_users := cGet c.new_user_counts bid
    command_usage := mGet c.command_usage bid [] }

/-- StatsCollector._flush_to_db under the lock: return untouched when there
is nothing to flush; otherwise issue one upsert per touched bot inside one
session. storeOk says whether the session's writes commit: on any store
failure the transaction commits nothing and the method returns before the
clear calls, leaving every counter unchanged; only after a fully successful
flush are the counters cleared. -/
def flush_to_db (c : HotCounters) (storeOk : Bool) : HotCounters × List UpsertCall :=
  if !(hasActivity c) then (c, [])
  else if storeOk then (emptyCounters, (flushBotIds c).map (mkUpsert c))
  else (c, [])

/-! ## Bot lifecycle manager (src/core/bot_manager.py)

A single managed bot with its polling tasks. The event loop is cooperative:
each modelled step is one of the atomic segments the source executes between
suspension points (start_bot up to returning, the polling coroutine's opening
assignments, its crash or normal exit, stop_bot as a whole). -/

/-- ManagedBot.state. -/
inductive BState
  | starting
  | running
  | stopping
  | stopped
  | error
  deriving DecidableEq

/-- Lifecycle of one asyncio task created by _start_polling: created but not
yet scheduled, running its loop body, or finished (returned, crashed or
cancelled). created and looping tasks are live. -/
inductive TaskStatus
  | created
  | looping
  | taskDone
  deriving DecidableEq

/-- One polling task handle. -/
structure PollTask where
  tid : Nat
  status : TaskStatus
  deriving DecidableEq

/-- polling or webhook, fixed at create_bot time. -/
inductive BotMode
  | polling
  | webhook
  deriving DecidableEq

/-- The ManagedBot fields the lifecycle claims are about. -/
structure ManagedBot where
  mode : BotMode
  state : BState
  started_at : Option Nat
  error_message : Option String
  polling_task : Option Nat
  deriving DecidableEq

/-- A managed bot together with every task ever created for it. -/
structure BotSys where
  bot : ManagedBot
  tasks : List PollTask
  nextTid : Nat
  deriving DecidableEq

/-- A bot as create_bot registers it: stopped, nothing started. -/
def initBotSys (mode : BotMode) : BotSys :=
  { bot :=
      { mode := mode, state := .stopped, started_at := none
        error_message := none, polling_task := none }
    tasks := [], nextTid := 0 }

/-- The typed lifecycle errors. -/
inductive BmError
  | botAlreadyRunning
  | botNotRunning
  deriving DecidableEq

/-- A task is live when it has not finished. -/
def PollTask.live (t : PollTask) : Bool :=
  t.status != .taskDone

/-- Number of live update-loop tasks. -/
def liveTasks (s : BotSys) : Nat :=
  (s.tasks.filter PollTask.live).length

/-- BotManager.start_bot up to its return: reject when already running;
otherwise mark starting and clear error_message, then either transition a
webhook bot directly to running with started_at set, or create the polling
task (which has not yet run) and return with the bot still starting. The
error component models the raised exception; the returned system is the
state at that moment (the source raises before mutating anything). -/
def start_bot (s : BotSys) (now : Nat) : Option BmError × BotSys :=
  if s.bot.state = .running then (some .botAlreadyRunning, s)
  else
    match s.bot.mode with
    | .webhook =>
      (none, { s with bot :=
        { s.bot with state := .running, started_at := some now, error_message := none } })
    | .polling =>
      (none,
        { s with
          bot := { s.bot with state := .starting, error_message := none, polling_task := some s.nextTid }
          tasks := s.tasks ++ [{ tid := s.nextTid, status := .created }]
          nextTid := s.nextTid + 1 })

/-- The polling coroutine's opening segment: a created task starts its body,
marking the bot running with started_at set. -/
def taskBegin (s : BotSys) (tid : Nat) (now : Nat) : BotSys :=
  { s with
    bot := { s.bot with state := .running, started_at := some now }
    tasks := s.tasks.map (fun t => if t.tid == tid then { t with status := .looping } else t) }

/-- The polling coroutine's except-Exception path: the loop raised, the bot
moves to error with a message; the finally clause then sees a non-running
state and leaves it. -/
def taskCrash (s : BotSys) (tid : Nat) (msg : String) : BotSys :=
  { s with
    bot := { s.bot with state := .error, error_message := some msg }
    tasks := s.tasks.map (fun t => if t.tid == tid then { t with status := .taskDone } else t) }

/-- The polling coroutine returning normally: the finally clause demotes a
still-running bot to stopped; polling_task is not touched. -/
def taskFinish (s : BotSys) (tid : Nat) : BotSys :=
  { s with
    bot := { s.bot with state := if s.bot.state = .running then .stopped else s.bot.state }
    tasks := s.tasks.map (fun t => if t.tid == tid then { t with status := .taskDone } else t) }

/-- BotManager.stop_bot: reject unless running or starting; otherwise mark
stopping, cancel the referenced live polling task (its CancelledError
handler and finally clause run with the bot already stopping, changing
nothing), close the client session, and on success mark stopped and clear
polling_task. closeOk=false models session.close raising: the bot moves to
error with polling_task left as-is and the exception propagates. -/
def stop_bot (s : BotSys) (closeOk : Bool) : Option BmError × BotSys :=
  if s.bot.state = .running ∨ s.bot.state = .starting then
    let tasks' := s.tasks.map (fun t =>
      if some t.tid == s.bot.polling_task ∧ t.status ≠ .taskDone then
        { t with status := .taskDone }
      else t)
    if closeOk then
      (none, { s with
        bot := { s.bot with state := .stopped, polling_task := none }
        tasks := tasks' })
    else
      (none, { s with
        bot := { s.bot with state := .error, error_message := some "close failed" }
        tasks := tasks' })
  else (some .botNotRunning, s)

/-- One scheduler step of the manager and its polling tasks: any manager call
that succeeds, or any ready segment of a polling coroutine. -/
inductive BotStep : BotSys → BotSys → Prop
  | start {s s' : BotSys} {now : Nat} :
      start_bot s now = (none, s') → BotStep s s'
  | stop {s s' : BotSys} {closeOk : Bool} :
      stop_bot s closeOk = (none, s') → BotStep s s'
  | begin {s : BotSys} {tid now : Nat} :
      { tid := tid, status := .created } ∈ s.tasks → BotStep s (taskBegin s tid now)
  | crash {s : BotSys} {tid : Nat} {msg : String} :
      { tid := tid, status := .looping } ∈ s.tasks → BotStep s (taskCrash s tid msg)
  | finish {s : BotSys} {tid : Nat} :
      { tid := tid, status := .looping } ∈ s.tasks → BotStep s (taskFinish s tid)

/-- Like BotStep, but start_bot is only invoked from stopped or error - the
legal transitions of the specified state machine. -/
inductive GuardedStep : BotSys → BotSys → Prop
  | start {s s' : BotSys} {now : Nat} :
      (s.bot.state = .stopped ∨ s.bot.state = .error) →
      start_bot s now = (none, s') → GuardedStep s s'
  | stop {s s' : BotSys} {closeOk : Bool} :
      stop_bot s closeOk = (none, s') → GuardedStep s s'
  | begin {s : BotSys} {tid now : Nat} :
      { tid := tid, status := .created } ∈ s.tasks → GuardedStep s (taskBegin s tid now)
  | crash {s : BotSys} {tid : Nat} {msg : String} :
      { tid := tid, status := .looping } ∈ s.tasks → GuardedStep s (taskCrash s tid msg)
  | finish {s : BotSys} {tid : Nat} :
      { tid := tid, status := .looping } ∈ s.tasks → GuardedStep s (taskFinish s tid)

/-- States the manager can reach for a bot created in mode m. -/
def BotReachable (m : BotMode) (s : BotSys) : Prop :=
  Relation.ReflTransGen BotStep (initBotSys m) s

/-- States reachable when start_bot is only called from stopped or error. -/
def GuardedReachable (m : BotMode) (s : BotSys) : Prop :=
  Relation.ReflTransGen GuardedStep (initBotSys m) s

/-- Well-formedness of the task ledger: identifiers are below the allocator
counter and distinct (asyncio task handles are distinct objects). -/
def TasksWf (s : BotSys) : Prop :=
  (∀ t ∈ s.tasks, t.tid < s.nextTid) ∧ (s.tasks.map PollTask.tid).Nodup

/-- The inductive invariant of the guarded lifecycle: at most one live
update-loop task, none once the bot is stopped or errored, and every live
task is the one polling_task references. -/
def GInv (s : BotSys) : Prop :=
  TasksWf s ∧
  liveTasks s ≤ 1 ∧
  ((s.bot.state = .stopped ∨ s.bot.state = .error) → liveTasks s = 0) ∧
  (∀ t ∈ s.tasks, t.live = true → s.bot.polling_task = some t.tid)

/-! ## SHA-256, HMAC and the webhook secret (src/webhook/server.py)

Bytes are Nat values below 256; 32-bit words are Nat values reduced modulo
2^32 explicitly. -/

/-- Reduce to a 32-bit word. -/
def w32 (n : Nat) : Nat := n % 4294967296

/-- 32-bit right rotation. -/
def rotr32 (x n : Nat) : Nat := w32 ((x >>> n) ||| (x <<< (32 - n)))

/-- SHA-256 Ch. -/
def shaCh (x y z : Nat) : Nat := (x &&& y) ^^^ ((x ^^^ 4294967295) &&& z)

/-- SHA-256 Maj. -/
def shaMaj (x y z : Nat) : Nat := (x &&& y) ^^^ (x &&& z) ^^^ (y &&& z)

/-- SHA-256 big sigma 0. -/
def bSig0 (x : Nat) : Nat := rotr32 x 2 ^^^ rotr32 x 13 ^^^ rotr32 x 22

/-- SHA-256 big sigma 1. -/
def bSig1 (x : Nat) : Nat := rotr32 x 6 ^^^ rotr32 x 11 ^^^ rotr32 x 25

/-- SHA-256 small sigma 0. -/
def sSig0 (x : Nat) : Nat := rotr32 x 7 ^^^ rotr32 x 18 ^^^ (x >>> 3)

/-- SHA-256 small sigma 1. -/
def sSig1 (x : Nat) : Nat := rotr32 x 17 ^^^ rotr32 x 19 ^^^ (x >>> 10)

/-- The 64 SHA-256 round constants. -/
def sha256K : List Nat :=
  [1116352408, 1899447441, 3049323471, 3921009573, 961987163, 1508970993,
   2453635748, 2870763221, 3624381080, 310598401, 607225278, 1426881987,
   1925078388, 2162078206, 2614888103, 3248222580, 3835390401, 4022224774,
   264347078, 604807628, 770255983, 1249150122, 1555081692, 1996064986,
   2554220882, 2821834349, 2952996808, 3210313671, 3336571891, 3584528711,
   113926993, 338241895, 666307205, 773529912, 1294757372, 1396182291,
   1695183700, 1986661051, 2177026350, 2456956037, 2730485921, 2820302411,
   3259730800, 3345764771, 3516065817, 3600352804, 4094571909, 275423344,
   430227734, 506948616, 659060556, 883997877, 958139571, 1322822218,
   1537002063, 1747873779, 1955562222, 2024104815, 2227730452, 2361852424,
   2428436474, 2756734187, 3204031479, 3329325298]

/-- The SHA-256 initial hash value. -/
def sha256H0 : List Nat :=
  [1779033703, 3144134277, 1013904242, 2773480762,
   1359893119, 2600822924, 528734635, 1541459225]

/-- A Nat as k bytes, big-endian. -/
def toBytesBE (k n : Nat) : List Nat :=
  (List.range k).map (fun i => (n >>> (8 * (k - 1 - i))) % 256)

/-- SHA-256 padding: append 0x80, zeros to 56 mod 64, and the 64-bit
big-endian bit length. -/
def shaPad (msg : List Nat) : List Nat :=
  let padLen := (119 - msg.length % 64) % 64
  msg ++ 128 :: List.replicate padLen 0 ++ toBytesBE 8 (msg.length * 8)

/-- Big-endian 4-byte groups to 32-bit words. -/
def bytesToWords : List Nat → List Nat
  | b0 :: b1 :: b2 :: b3 :: rest =>
    (b0 * 16777216 + b1 * 65536 + b2 * 256 + b3) :: bytesToWords rest
  | _ => []

/-- Extend the 16 message words by one scheduled word. -/
def extendStep (ws : List Nat) : List Nat :=
  let n := ws.length
  ws ++ [w32 (sSig1 (ws.getD (n - 2) 0) + ws.getD (n - 7) 0 +
              sSig0 (ws.getD (n - 15) 0) + ws.getD (n - 16) 0)]

/-- The 64-word message schedule of one chunk. -/
def schedule (chunk : List Nat) : List Nat :=
  (List.range 48).foldl (fun ws _ => extendStep ws) (bytesToWords chunk)

/-- One SHA-256 round: rotate the working variables. -/
def shaRound (s : List Nat) (kw : Nat × Nat) : List Nat :=
  match s with
  | [a, b, c, d, e, f, g, h] =>
    let t1 := w32 (h + bSig1 e + shaCh e f g + kw.1 + kw.2)
    let t2 := w32 (bSig0 a + shaMaj a b c)
    [w32 (t1 + t2), a, b, c, w32 (d + t1), e, f, g]
  | other => other

/-- Compress one 64-byte chunk into the running hash. -/
def shaCompress (hs : List Nat) (chunk : List Nat) : List Nat :=
  let ws := schedule chunk
  let fin := (sha256K.zip ws).foldl shaRound hs
  (hs.zip fin).map (fun p => w32 (p.1 + p.2))

/-- Process a padded message 64 bytes at a time. The fuel is one unit per
remaining byte, always enough since each step consumes 64 of them. -/
def shaChunks : Nat → List Nat → List Nat → List Nat
  | _, hs, [] => hs
  | 0, hs, _ => hs
  | fuel + 1, hs, bytes => shaChunks fuel (shaCompress hs (bytes.take 64)) (bytes.drop 64)

/-- SHA-256 of a byte sequence, as 32 digest bytes. -/
def sha256Bytes (msg : List Nat) : List Nat :=
  let padded := shaPad msg
  (shaChunks padded.length sha256H0 padded).flatMap (toBytesBE 4)

/-- Lowercase hex digit. -/
def hexChar (n : Nat) : Char :=
  if n < 10 then Char.ofNat (48 + n) else Char.ofNat (87 + n)

/-- hashlib's hexdigest: two lowercase hex digits per byte. -/
def hexDigest (bytes : List Nat) : String :=
  String.mk (bytes.flatMap (fun b => [hexChar (b / 16), hexChar (b % 16)]))

/-- A string's bytes. The webhook secrets and bot ids are ASCII, where the
code points are the UTF-8 bytes. -/
def strBytes (s : String) : List Nat :=
  s.data.map Char.toNat

/-- HMAC-SHA256 (RFC 2104) of a message under a key, as the spec's derived
per-bot secret names it: pad or hash the key to the 64-byte block size, then
hash over the inner and outer keyed pads. -/
def hmacSha256 (key msg : List Nat) : List Nat :=
  let k0 := if 64 < key.length then sha256Bytes key else key
  let kp := k0 ++ List.replicate (64 - k0.length) 0
  sha256Bytes ((kp.map (fun b => b ^^^ 92)) ++
    sha256Bytes ((kp.map (fun b => b ^^^ 54)) ++ msg))

/-- WebhookServer._get_bot_secret: empty when no global secret is set,
otherwise the SHA-256 hex digest of "secret:bot_id" truncated to 32
characters. -/
def get_bot_secret (secret : String) (bot_id : String) : String :=
  if secret = "" then ""
  else (hexDigest (sha256Bytes (strBytes (secret ++ ":" ++ bot_id)))).take 32

/-- WebhookServer._verify_secret: vacuously true without a configured
secret; otherwise hmac.compare_digest of the X-Telegram-Bot-Api-Secret-Token
header (empty when absent) against the derived per-bot secret - a
constant-time comparison whose value is string equality. -/
def verify_secret (secret : String) (headerToken : Option String) (bot_id : String) : Bool :=
  if secret = "" then true
  else (headerToken.getD "") == get_bot_secret secret bot_id

/-- One webhook HTTP request as the handler sees it. -/
structure WebhookRequest where
  bot_id : Option String
  headerToken : Option String
  bodyOk : Bool
  deriving DecidableEq

/-- WebhookServer._webhook_handler, returning the HTTP status code: 400
without a bot id, 503 without a manager, 404 for an unknown bot, 503 for a
known bot that is not running, 401 when secret verification fails, then 200
when the update parses and dispatches and 500 otherwise. -/
def webhook_handler (secret : String) (manager : Option (List (String × BState)))
    (req : WebhookRequest) : Nat :=
  match req.bot_id with
  | none => 400
  | some bid =>
    if bid = "" then 400
    else
      match manager with
      | none => 503
      | some bots =>
        match (bots.find? (fun p => p.1 == bid)).map Prod.snd with
        | none => 404
        | some st =>
          if st ≠ .running then 503
          else if !(verify_secret secret req.headerToken bid) then 401
          else if req.bodyOk then 200
          else 500

/-! ## Concrete fixtures used by witnesses and counterexamples -/

/-- Two funded users of bot "a" (spec scenarios S2 and S3). -/
def billingStoreW : BillingStore :=
  { tokens :=
      [((7, "a"), { balance := 10, total_purchased := 0, total_consumed := 0 }),
       ((8, "a"), { balance := 2, total_purchased := 0, total_consumed := 0 })]
    transactions := [] }

/-- An existing hourly bucket for bot "a" with one recorded /start use. -/
def statsTableC2 : StatsTable :=
  [(("a", 0),
    { message_count := 5, command_count := 2, callback_count := 0, error_count := 0
      unique_users := 3, new_users := 1, command_usage := some [("start", 1)] })]

/-- A registry where plugin a depends on the unregistered u and on c, and c
depends on itself: both a reachable cycle and a reachable unknown name. -/
def regCycleAndMissing : PluginRegistry :=
  [("a", { name := "a", version := "1", dependencies := ["u", "c"] }),
   ("c", { name := "c", version := "1", dependencies := ["c"] })]

/-- An acyclic registry: p depends on q, q on nothing. -/
def regAcyclic : PluginRegistry :=
  [("p", { name := "p", version := "1", dependencies := ["q"] }),
   ("q", { name := "q", version := "1", dependencies := [] })]

/-- Middleware state owning one bucket for user 5. -/
def rlmW : RateLimitMiddleware :=
  { rate := 1, burst := 2
    buckets := [(5, { tokens := 2, last_update := 0, rate := 1, burst := 2 })]
    cleanup_interval := 300, last_cleanup := 0 }

/-- Hot counters with one recorded message and one /start command for bot
"a" from user 9. -/
def hotW : HotCounters :=
  { message_counts := [("a", 1)], command_counts := [("a", 1)]
    callback_counts := [], error_counts := [], new_user_counts := []
    command_usage := [("a", [("start", 1)])], seen_users := [("a", [9])] }

/-! ## Association-list helper lemmas -/

theorem find?_map_update_self {α β : Type} [BEq α] [LawfulBEq α]
    (l : List (α × β)) (k : α) (v : β) (h : l.any (fun p => p.1 == k) = true) :
    ((l.map (fun p => if p.1 == k then (p.1, v) else p)).find?
        (fun p => p.1 == k)).map Prod.snd = some v := by
  induction l with
  | nil => simp at h
  | cons hd tl ih =>
    simp only [List.map_cons]
    by_cases hk : (hd.1 == k) = true
    · rw [if_pos hk, List.find?_cons_of_pos]
      · simp
      · simpa using hk
    · rw [if_neg hk, List.find?_cons_of_neg]
      · apply ih
        simpa [hk] using h
      · simpa using hk

theorem find?_map_update_ne {α β : Type} [BEq α] [LawfulBEq α]
    (l : List (α × β)) (k k' : α) (v : β) (h : (k' == k) = false) :
    ((l.map (fun p => if p.1 == k then (p.1, v) else p)).find?
        (fun p => p.1 == k')).map Prod.snd
      = (l.find? (fun p => p.1 == k')).map Prod.snd := by
  induction l with
  | nil => simp
  | cons hd tl ih =>
    simp only [List.map_cons]
    by_cases hk : (hd.1 == k) = true
    · have hd1k : hd.1 = k := eq_of_beq hk
      have hne : (hd.1 == k') = false := by
        rw [hd1k]
        cases hkk : (k == k') with
        | false => rfl
        | true =>
          exfalso
          have hke : k = k' := eq_of_beq hkk
          rw [hke] at h
          simp at h
      rw [if_pos hk, List.find?_cons_of_neg, List.find?_cons_of_neg]
      · exact ih
      · simpa using hne
      · simpa using hne
    · rw [if_neg hk]
      by_cases hk' : (hd.1 == k') = true
      · rw [List.find?_cons_of_pos, List.find?_cons_of_pos]
        · simpa using hk'
        · simpa using hk'
      · rw [List.find?_cons_of_neg, List.find?_cons_of_neg]
        · exact ih
        · simpa using hk'
        · simpa using hk'

theorem any_of_find?_eq_some {α : Type} (l : List α) (q : α → Bool) (x : α)
    (h : l.find? q = some x) : l.any q = true :=
  List.any_of_mem (List.mem_of_find?_eq_some h) (List.find?_some h)

theorem find?_none_of_not_any {α : Type} (l : List α) (q : α → Bool)
    (h : ¬ l.any q = true) : l.find? q = none := by
  rw [List.find?_eq_none]
  intro a ha hqa
  exact h (List.any_of_mem ha hqa)

/-! ## C10: register replaces an existing plugin class -/

/-- C10: registering a plugin class whose declared name is already in the
registry replaces the existing class rather than failing - afterwards
get_plugin_class's lookup returns the new class and every other name is
untouched - and register fails exactly when the declared name is empty. -/
theorem register_replaces_existing (reg : PluginRegistry) (c : PluginClass) :
    (c.name ≠ "" →
      register reg c = .ok (dictSet reg c.name c) ∧
      dictGet (dictSet reg c.name c) c.name = some c ∧
      (∀ k, k ≠ c.name → dictGet (dictSet reg c.name c) k = dictGet reg k)) ∧
    (c.name = "" → register reg c = .error "Plugin class must have a name") := by
  constructor
  · intro h
    refine ⟨by simp [register, h], ?_, ?_⟩
    · unfold dictGet dictSet
      by_cases hany : reg.any (fun p => p.1 == c.name) = true
      · rw [if_pos hany]
        exact find?_map_update_self reg c.name c hany
      · rw [if_neg hany]
        rw [List.find?_append, find?_none_of_not_any reg _ hany]
        simp [List.find?]
    · intro k hk
      unfold dictGet dictSet
      have hbeq : (k == c.name) = false := beq_eq_false_iff_ne.mpr hk
      have hbeq2 : (c.name == k) = false := beq_eq_false_iff_ne.mpr (Ne.symm hk)
      by_cases hany : reg.any (fun p => p.1 == c.name) = true
      · rw [if_pos hany]
        exact find?_map_update_ne reg c.name k c hbeq
      · rw [if_neg hany]
        rw [List.find?_append]
        simp [List.find?, hbeq2]
  · intro h
    simp [register, h]

/-- Witness for C10 at a registry that already binds the name p. -/
theorem register_replaces_existing_witness :
    register regAcyclic { name := "p", version := "2", dependencies := [] } =
      .ok (dictSet regAcyclic "p" { name := "p", version := "2", dependencies := [] }) ∧
    dictGet (dictSet regAcyclic "p" { name := "p", version := "2", dependencies := [] }) "p" =
      some { name := "p", version := "2", dependencies := [] } ∧
    dictGet (dictSet regAcyclic "p" { name := "p", version := "2", dependencies := [] }) "q" =
      dictGet regAcyclic "q" := by
  have h := (register_replaces_existing regAcyclic
    { name := "p", version := "2", dependencies := [] }).1 (by decide)
  exact ⟨h.1, h.2.1, h.2.2 "q" (by decide)⟩

/-! ## C9: events without a user bypass rate limiting -/

/-- C9: an incoming event with no from_user is handed to the inner handler
unconditionally - it is never dropped - and the bucket map is not consulted
for it: no bucket is created or mutated (the state change is exactly the
periodic time-based cleanup, which removes stale buckets independently of
the event), and the outcome is the same for every user-less event. -/
theorem rate_limit_passes_userless (m : RateLimitMiddleware) (e : TgEvent) (now : ℚ)
    (h : e.from_user = none) :
    rlCall m e now = (cleanup_old_buckets m now, true) ∧
    (∀ uid b, (uid, b) ∈ (rlCall m e now).1.buckets → (uid, b) ∈ m.buckets) ∧
    (∀ e2 : TgEvent, e2.from_user = none → rlCall m e2 now = rlCall m e now) := by
  have hmain : rlCall m e now = (cleanup_old_buckets m now, true) := by
    simp [rlCall, h]
  refine ⟨hmain, ?_, ?_⟩
  · intro uid b hb
    rw [hmain] at hb
    unfold cleanup_old_buckets at hb
    by_cases hc : now - m.last_cleanup < m.cleanup_interval
    · rw [if_pos hc] at hb
      exact hb
    · rw [if_neg hc] at hb
      simp only at hb
      exact (List.mem_filter.mp hb).1
  · intro e2 h2
    rw [hmain]
    simp [rlCall, h2]

/-- Witness for C9: a user-less message against a middleware owning a
bucket. -/
theorem rate_limit_passes_userless_witness :
    rlCall rlmW { from_user := none, isMessage := true } 1 =
      (cleanup_old_buckets rlmW 1, true) := by
  exact (rate_limit_passes_userless rlmW { from_user := none, isMessage := true } 1 rfl).1

/-! ## C8: a failed stats flush keeps the hot counters -/

/-- C8: when the store writes of a flush fail, the flush leaves every hot
counter exactly as it was (so the same deltas are carried into the next
tick, and rerunning the flush from the post-failure state is identical to
rerunning it from the original state); counters are cleared only by a flush
whose writes all succeed. -/
theorem stats_flush_failure_preserves (c : HotCounters) :
    (flush_to_db c false).1 = c ∧
    (flush_to_db c false).2 = [] ∧
    (∀ ok, (flush_to_db c ok).1 ≠ c → ok = true) ∧
    (hasActivity c = true → (flush_to_db c true).1 = emptyCounters) ∧
    (∀ ok, flush_to_db (flush_to_db c false).1 ok = flush_to_db c ok) := by
  have h1 : (flush_to_db c false).1 = c := by
    unfold flush_to_db
    by_cases h : hasActivity c = true <;> simp [h]
  have h2 : (flush_to_db c false).2 = [] := by
    unfold flush_to_db
    by_cases h : hasActivity c = true <;> simp [h]
  refine ⟨h1, h2, ?_, ?_, ?_⟩
  · intro ok hne
    cases ok
    · exact absurd h1 hne
    · rfl
  · intro h
    unfold flush_to_db
    simp [h]
  · intro ok
    rw [h1]

/-- Witness for C8 on counters holding one message and one command. -/
theorem stats_flush_failure_preserves_witness :
    (flush_to_db hotW false).1 = hotW ∧ (flush_to_db hotW true).1 = emptyCounters := by
  have h := stats_flush_failure_preserves hotW
  exact ⟨h.1, h.2.2.2.1 (by decide)⟩

/-! ## C2: the hourly upsert does not merge command_usage -/

/-- C2 (code bug): upserting deltas onto an existing (bot_id, hour_bucket)
row adds the counter columns and takes the max of unique_users as claimed,
but the stored command_usage count of start stays 1 instead of becoming
1 + 2: the on-conflict clause concatenates the existing jsonb with an empty
jsonb literal, discarding the incoming map entirely. -/
theorem upsert_command_usage_not_summed :
    (lookupStats (upsert_hourly_stats statsTableC2 "a" 0 100 20 0 0 30 0
        (some [("start", 2)])) "a" 0).map
      (fun r => (r.message_count, r.unique_users,
        r.command_usage.map (fun j => jlookup j "start")))
      = some (105, 30, some (some 1)) := by decide

/-! ## C1: token consume -/

/-- C1: for amount > 0, consume on a sufficiently funded balance row debits
exactly amount, adds amount to total_consumed, leaves every other balance
row alone, appends exactly one consume transaction row with amount = -amount
and balance_after equal to the returned balance (all inside the one store
transaction the session commits), and the returned balance is nonnegative;
on an underfunded or missing row it raises InsufficientTokens carrying
required = amount and available = the current stored balance (0 when no row
exists) while the conditional update has touched nothing, so neither the
balance row nor the transaction log changes. -/
theorem token_consume_spec (st : BillingStore) (tid : Int) (bid : String)
    (amount : Int) (action : String) (hpos : 0 < amount) :
    (∀ ut, lookupToken st tid bid = some ut → amount ≤ ut.balance →
      ∃ st', TokenManager.consume st bid tid amount action = .ok (st', ut.balance - amount) ∧
        lookupToken st' tid bid =
          some { balance := ut.balance - amount
                 total_purchased := ut.total_purchased
                 total_consumed := ut.total_consumed + amount } ∧
        (∀ tid2 bid2, (tid2, bid2) ≠ (tid, bid) →
          lookupToken st' tid2 bid2 = lookupToken st tid2 bid2) ∧
        st'.transactions = st.transactions ++
          [{ telegram_id := tid, bot_id := bid, transaction_type := "consume"
             amount := -amount, balance_after := ut.balance - amount
             reference_type := some "action", reference_id := some action }] ∧
        0 ≤ ut.balance - amount) ∧
    ((∀ ut, lookupToken st tid bid = some ut → ut.balance < amount) →
      TokenManager.consume st bid tid amount action =
        .error (.insufficientTokens amount ((get_balance st tid bid).getD 0) action) ∧
      consume_tokens st tid bid amount = .ok (st, none)) := by
  have h0 : ¬ amount ≤ 0 := not_le.mpr hpos
  constructor
  · intro ut hut hle
    have hct : consume_tokens st tid bid amount =
        Except.ok
          (({ tokens :=
                updateTokenRow st.tokens tid bid
                  { balance := ut.balance - amount
                    total_purchased := ut.total_purchased
                    total_consumed := ut.total_consumed + amount }
              transactions := st.transactions } : BillingStore),
            some (ut.balance - amount)) := by
      simp only [consume_tokens, if_neg h0, hut, if_pos hle]
    refine ⟨{ tokens :=
                updateTokenRow st.tokens tid bid
                  { balance := ut.balance - amount
                    total_purchased := ut.total_purchased
                    total_consumed := ut.total_consumed + amount }
              transactions := st.transactions ++
                [{ telegram_id := tid, bot_id := bid, transaction_type := "consume"
                   amount := -amount, balance_after := ut.balance - amount
                   reference_type := some "action", reference_id := some action }] },
            ?_, ?_, ?_, ?_, ?_⟩
    · unfold TokenManager.consume
      rw [hct]
    · rcases hfind : st.tokens.find? (fun p => p.1 == (tid, bid)) with _ | x
      · unfold lookupToken at hut
        rw [hfind] at hut
        cases hut
      · have hany := any_of_find?_eq_some _ _ _ hfind
        unfold lookupToken updateTokenRow
        exact find?_map_update_self st.tokens (tid, bid) _ hany
    · intro tid2 bid2 hne
      unfold lookupToken updateTokenRow
      exact find?_map_update_ne st.tokens (tid, bid) (tid2, bid2) _
        (beq_eq_false_iff_ne.mpr hne)
    · rfl
    · exact sub_nonneg.mpr hle
  · intro hfail
    have hct : consume_tokens st tid bid amount = .ok (st, none) := by
      rcases hut : lookupToken st tid bid with _ | ut
      · simp only [consume_tokens, if_neg h0, hut]
      · simp only [consume_tokens, if_neg h0, hut, if_neg (not_le.mpr (hfail ut hut))]
    constructor
    · unfold TokenManager.consume
      rw [hct]
    · exact hct

/-- Witness for C1: scenarios S3 (balance 10, consume 3, new balance 7) and
S2 (balance 2, consume 5 raises InsufficientTokens(5, 2)). -/
theorem token_consume_spec_witness :
    (∃ st', TokenManager.consume billingStoreW "a" 7 3 "x" = .ok (st', 7)) ∧
    TokenManager.consume billingStoreW "a" 8 5 "x" =
      .error (.insufficientTokens 5 2 "x") := by
  have h1 := (token_consume_spec billingStoreW 7 "a" 3 "x" (by decide)).1
    { balance := 10, total_purchased := 0, total_consumed := 0 } (by decide) (by decide)
  have hf : ∀ ut, lookupToken billingStoreW 8 "a" = some ut → ut.balance < 5 := by
    intro ut h
    have hl : lookupToken billingStoreW 8 "a" =
        some { balance := 2, total_purchased := 0, total_consumed := 0 } := by decide
    have h2 := hl.symm.trans h
    injection h2 with h3
    rw [← h3]
    decide
  have h2 := (token_consume_spec billingStoreW 8 "a" 5 "x" (by decide)).2 hf
  have hg : (get_balance billingStoreW 8 "a").getD 0 = 2 := by decide
  rw [hg] at h2
  obtain ⟨st', hok, -⟩ := h1
  have h73 : (10 : Int) - 3 = 7 := by decide
  rw [h73] at hok
  exact ⟨⟨st', hok⟩, h2.1⟩

/-! ## Bot lifecycle helper lemmas -/

theorem start_bot_ok (s : BotSys) (now : Nat) (s2 : BotSys)
    (h : start_bot s now = (none, s2)) :
    s.bot.state ≠ .running ∧
    ((s.bot.mode = .webhook ∧
        s2 = { s with bot :=
          { s.bot with state := .running, started_at := some now, error_message := none } }) ∨
     (s.bot.mode = .polling ∧
        s2 = { s with
          bot := { s.bot with state := .starting, error_message := none, polling_task := some s.nextTid }
          tasks := s.tasks ++ [{ tid := s.nextTid, status := .created }]
          nextTid := s.nextTid + 1 })) := by
  by_cases hr : s.bot.state = .running
  · exfalso
    unfold start_bot at h
    rw [if_pos hr] at h
    exact Option.noConfusion (congrArg Prod.fst h)
  · refine ⟨hr, ?_⟩
    unfold start_bot at h
    rw [if_neg hr] at h
    cases hm : s.bot.mode
    · rw [hm] at h
      injection h with h1 h2
      exact .inr ⟨rfl, h2.symm⟩
    · rw [hm] at h
      injection h with h1 h2
      exact .inl ⟨rfl, h2.symm⟩

theorem stop_bot_ok (s : BotSys) (closeOk : Bool) (s2 : BotSys)
    (h : stop_bot s closeOk = (none, s2)) :
    (s.bot.state = .running ∨ s.bot.state = .starting) ∧
    s2.tasks = s.tasks.map (fun t =>
      if some t.tid == s.bot.polling_task ∧ t.status ≠ .taskDone then
        { t with status := .taskDone }
      else t) ∧
    s2.nextTid = s.nextTid ∧
    ((closeOk = true ∧ s2.bot = { s.bot with state := .stopped, polling_task := none }) ∨
     (closeOk = false ∧
        s2.bot = { s.bot with state := .error, error_message := some "close failed" })) := by
  by_cases hg : s.bot.state = .running ∨ s.bot.state = .starting
  · refine ⟨hg, ?_⟩
    unfold stop_bot at h
    rw [if_pos hg] at h
    cases closeOk
    · injection h with h1 h2
      rw [← h2]
      exact ⟨rfl, rfl, .inr ⟨rfl, rfl⟩⟩
    · injection h with h1 h2
      rw [← h2]
      exact ⟨rfl, rfl, .inl ⟨rfl, rfl⟩⟩
  · exfalso
    unfold stop_bot at h
    rw [if_neg hg] at h
    exact Option.noConfusion (congrArg Prod.fst h)

theorem botStep_running_started {s s2 : BotSys} (hstep : BotStep s s2)
    (ih : s.bot.state = .running → s.bot.started_at ≠ none) :
    s2.bot.state = .running → s2.bot.started_at ≠ none := by
  cases hstep with
  | start h =>
    obtain ⟨hnr, hcase⟩ := start_bot_ok _ _ _ h
    rcases hcase with ⟨hm, rfl⟩ | ⟨hm, rfl⟩
    · intro hr
      simp
    · intro hr
      simp at hr
  | stop h =>
    obtain ⟨hg, htasks, hnext, hbot⟩ := stop_bot_ok _ _ _ h
    rcases hbot with ⟨hc, hbot⟩ | ⟨hc, hbot⟩ <;>
      · intro hr
        rw [hbot] at hr
        simp at hr
  | begin hmem =>
    intro hr
    simp [taskBegin]
  | crash hmem =>
    intro hr
    simp [taskCrash] at hr
  | finish hmem =>
    intro hr
    simp only [taskFinish] at hr
    by_cases hrs : s.bot.state = .running
    · rw [if_pos hrs] at hr
      exact absurd hr (by decide)
    · rw [if_neg hrs] at hr
      exact absurd hr hrs

theorem reachable_running_started (m : BotMode) (s : BotSys) (h : BotReachable m s) :
    s.bot.state = .running → s.bot.started_at ≠ none := by
  unfold BotReachable at h
  induction h with
  | refl =>
    intro hr
    simp [initBotSys] at hr
  | tail _ hstep ih => exact botStep_running_started hstep ih

/-! ## C4: transition guards -/

/-- C4 (amended): start_bot fails with BotAlreadyRunning exactly when the
bot's state is running - it is not rejected from starting or stopping, so
start is legal from every non-running state, not only stopped and error -
and stop_bot fails with BotNotRunning exactly when the state is neither
running nor starting (in particular on a stopped bot); both checks precede
any mutation, so a failing call returns with the system unchanged. -/
theorem lifecycle_transition_guards (s : BotSys) (now : Nat) (closeOk : Bool) :
    (s.bot.state = .running → start_bot s now = (some .botAlreadyRunning, s)) ∧
    (s.bot.state ≠ .running → (start_bot s now).1 = none) ∧
    (¬(s.bot.state = .running ∨ s.bot.state = .starting) →
      stop_bot s closeOk = (some .botNotRunning, s)) ∧
    ((s.bot.state = .running ∨ s.bot.state = .starting) → (stop_bot s closeOk).1 = none) := by
  refine ⟨?_, ?_, ?_, ?_⟩
  · intro h
    simp [start_bot, h]
  · intro h
    unfold start_bot
    rw [if_neg h]
    cases s.bot.mode <;> simp
  · intro h
    simp [stop_bot, h]
  · intro h
    unfold stop_bot
    rw [if_pos h]
    cases closeOk <;> simp

/-- C4 counterexample: a polling bot that has been started is still in state
starting before its task first runs, and a second start_bot call is accepted
there (no BotAlreadyRunning), contradicting the claim that start is legal
only from stopped or error. -/
theorem start_bot_accepted_while_starting :
    (start_bot (initBotSys .polling) 3).2.bot.state = BState.starting ∧
    (start_bot (start_bot (initBotSys .polling) 3).2 4).1 = none := by decide

/-- Witness for C4 from the stopped initial state. -/
theorem lifecycle_transition_guards_witness :
    (start_bot (initBotSys .webhook) 2).1 = none ∧
    stop_bot (initBotSys .webhook) true = (some .botNotRunning, initBotSys .webhook) := by
  have h := lifecycle_transition_guards (initBotSys .webhook) 2 true
  exact ⟨h.2.1 (by decide), h.2.2.1 (by decide)⟩

/-! ## Guarded lifecycle invariant -/

theorem liveTasks_eq (s : BotSys) : liveTasks s = s.tasks.countP PollTask.live := by
  simp [liveTasks, List.countP_eq_length_filter]

theorem countP_zero_false {α : Type} (l : List α) (p : α → Bool) (h : l.countP p = 0) :
    ∀ x ∈ l, p x = false := by
  intro x hx
  by_cases hp : p x = true
  · exfalso
    have hpos := List.countP_pos_iff.mpr ⟨x, hx, hp⟩
    omega
  · simpa using hp

theorem update_status_split (tasks : List PollTask) (tid0 : Nat) (s0 s1 : TaskStatus)
    (hmem : (⟨tid0, s0⟩ : PollTask) ∈ tasks) (hnd : (tasks.map PollTask.tid).Nodup) :
    ∃ l1 l2, tasks = l1 ++ (⟨tid0, s0⟩ : PollTask) :: l2 ∧
      (∀ t ∈ l1, t.tid ≠ tid0) ∧ (∀ t ∈ l2, t.tid ≠ tid0) ∧
      tasks.map (fun t => if t.tid == tid0 then { t with status := s1 } else t)
        = l1 ++ (⟨tid0, s1⟩ : PollTask) :: l2 := by
  obtain ⟨l1, l2, rfl⟩ := List.append_of_mem hmem
  rw [List.map_append, List.map_cons] at hnd
  have hnotl1 : tid0 ∉ l1.map PollTask.tid := by
    have hd := List.disjoint_of_nodup_append hnd
    intro hc
    exact hd hc (by simp)
  have hnotl2 : tid0 ∉ l2.map PollTask.tid := by
    have h2 := hnd.of_append_right
    rw [List.nodup_cons] at h2
    exact h2.1
  have hl1 : ∀ t ∈ l1, t.tid ≠ tid0 := by
    intro t ht hc
    exact hnotl1 (hc ▸ List.mem_map_of_mem PollTask.tid ht)
  have hl2 : ∀ t ∈ l2, t.tid ≠ tid0 := by
    intro t ht hc
    exact hnotl2 (hc ▸ List.mem_map_of_mem PollTask.tid ht)
  refine ⟨l1, l2, rfl, hl1, hl2, ?_⟩
  rw [List.map_append, List.map_cons]
  have e1 : l1.map (fun t => if t.tid == tid0 then { t with status := s1 } else t) = l1 := by
    conv_rhs => rw [← List.map_id l1]
    apply List.map_congr_left
    intro t ht
    have hb : (t.tid == tid0) = false := beq_eq_false_iff_ne.mpr (hl1 t ht)
    simp [hb]
  have e2 : l2.map (fun t => if t.tid == tid0 then { t with status := s1 } else t) = l2 := by
    conv_rhs => rw [← List.map_id l2]
    apply List.map_congr_left
    intro t ht
    have hb : (t.tid == tid0) = false := beq_eq_false_iff_ne.mpr (hl2 t ht)
    simp [hb]
  rw [e1, e2]
  simp

theorem ginv_init (m : BotMode) : GInv (initBotSys m) := by
  refine ⟨⟨?_, ?_⟩, ?_, ?_, ?_⟩ <;> simp [initBotSys, liveTasks, TasksWf]

theorem ginv_preserved {s s2 : BotSys} (hstep : GuardedStep s s2) (hinv : GInv s) :
    GInv s2 := by
  obtain ⟨⟨hbound, hnd⟩, hle, hzero, hpoint⟩ := hinv
  cases hstep with
  | start hguard h =>
    obtain ⟨hnr, hcase⟩ := start_bot_ok _ _ _ h
    have hz : liveTasks s = 0 := hzero hguard
    have hdead : ∀ t ∈ s.tasks, t.live = false := by
      rw [liveTasks_eq] at hz
      exact countP_zero_false _ _ hz
    rcases hcase with ⟨hm, rfl⟩ | ⟨hm, rfl⟩
    · refine ⟨⟨hbound, hnd⟩, ?_, ?_, ?_⟩
      · show liveTasks s ≤ 1
        omega
      · intro hst
        exact hz
      · intro t ht hl
        rw [hdead t ht] at hl
        cases hl
    · constructor
      · constructor
        · intro t ht
          rcases List.mem_append.mp ht with h1 | h1
          · have := hbound t h1
            simp only
            omega
          · simp at h1
            rw [h1]
            simp
        · show ((s.tasks ++ [(⟨s.nextTid, .created⟩ : PollTask)]).map PollTask.tid).Nodup
          rw [List.map_append]
          refine List.Nodup.append hnd (by simp) ?_
          intro x hx1 hx2
          simp at hx2
          obtain ⟨t, ht, htid⟩ := List.mem_map.mp hx1
          have := hbound t ht
          omega
      refine ⟨?_, ?_, ?_⟩
      · rw [liveTasks_eq]
        show (s.tasks ++ [(⟨s.nextTid, .created⟩ : PollTask)]).countP PollTask.live ≤ 1
        rw [List.countP_append]
        rw [liveTasks_eq] at hz
        simp [hz, List.countP_cons, PollTask.live]
      · intro hst
        rcases hst with hst | hst <;> simp at hst
      · intro t ht hl
        rcases List.mem_append.mp ht with h1 | h1
        · rw [hdead t h1] at hl
          cases hl
        · simp at h1
          rw [h1]
  | stop h =>
    obtain ⟨hg, htasks, hnext, hbot⟩ := stop_bot_ok _ _ _ h
    have hdead2 : ∀ t2 ∈ s2.tasks, t2.live = false := by
      intro t2 ht2
      rw [htasks] at ht2
      obtain ⟨t, ht, heq⟩ := List.mem_map.mp ht2
      rw [← heq]
      split
      · simp [PollTask.live]
      · next hcond =>
        by_cases hl : t.live = true
        · exfalso
          apply hcond
          have hp := hpoint t ht hl
          refine ⟨?_, ?_⟩
          · rw [hp]
            simp
          · simpa [PollTask.live] using hl
        · simpa using hl
    have hz2 : liveTasks s2 = 0 := by
      rw [liveTasks_eq]
      rw [List.countP_eq_zero]
      intro t2 ht2
      rw [hdead2 t2 ht2]
      simp
    refine ⟨⟨?_, ?_⟩, by omega, fun _ => hz2, ?_⟩
    · intro t2 ht2
      rw [htasks] at ht2
      obtain ⟨t, ht, heq⟩ := List.mem_map.mp ht2
      have htid : t2.tid = t.tid := by
        rw [← heq]
        split
        · rfl
        · rfl
      rw [hnext, htid]
      exact hbound t ht
    · rw [htasks]
      rw [List.map_map]
      have : (PollTask.tid ∘ fun t =>
          if (some t.tid == s.bot.polling_task) = true ∧ t.status ≠ .taskDone then
            { t with status := .taskDone }
          else t) = PollTask.tid := by
        funext t
        simp only [Function.comp_apply]
        split
        · rfl
        · rfl
      rw [this]
      exact hnd
    · intro t2 ht2 hl
      rw [hdead2 t2 ht2] at hl
      cases hl
  | @begin tid now hmem =>
    obtain ⟨l1, l2, hsplit, hl1, hl2, hmap⟩ :=
      update_status_split s.tasks tid .created .looping hmem hnd
    constructor
    · constructor
      · intro t ht
        simp only [taskBegin] at ht
        rw [hmap] at ht
        show t.tid < s.nextTid
        rcases List.mem_append.mp ht with h1 | h1
        · exact hbound t (by rw [hsplit]; exact List.mem_append_left _ h1)
        · rcases List.mem_cons.mp h1 with h2 | h2
          · rw [h2]
            exact hbound (⟨tid, .created⟩ : PollTask)
              (by rw [hsplit]; exact List.mem_append_right _ (List.mem_cons_self _ _))
          · exact hbound t (by rw [hsplit]; exact List.mem_append_right _ (List.mem_cons_of_mem _ h2))
      · show ((taskBegin s _ _).tasks.map PollTask.tid).Nodup
        simp only [taskBegin]
        rw [hmap]
        rw [hsplit] at hnd
        simpa using hnd
    refine ⟨?_, ?_, ?_⟩
    · rw [liveTasks_eq]
      simp only [taskBegin]
      rw [hmap, List.countP_append, List.countP_cons]
      rw [liveTasks_eq, hsplit, List.countP_append, List.countP_cons] at hle
      simp [PollTask.live] at hle ⊢
      omega
    · intro hst
      rcases hst with hst | hst <;> simp [taskBegin] at hst
    · intro t ht hl
      simp only [taskBegin] at ht ⊢
      rw [hmap] at ht
      rcases List.mem_append.mp ht with h1 | h1
      · exact hpoint t (by rw [hsplit]; exact List.mem_append_left _ h1) hl
      · rcases List.mem_cons.mp h1 with h2 | h2
        · rw [h2]
          exact hpoint (⟨tid, .created⟩ : PollTask)
            (by rw [hsplit]; exact List.mem_append_right _ (List.mem_cons_self _ _))
            (by simp [PollTask.live])
        · exact hpoint t (by rw [hsplit]; exact List.mem_append_right _ (List.mem_cons_of_mem _ h2)) hl
  | @crash tid msg hmem =>
    obtain ⟨l1, l2, hsplit, hl1, hl2, hmap⟩ :=
      update_status_split s.tasks tid .looping .taskDone hmem hnd
    have hcounts : l1.countP PollTask.live = 0 ∧ l2.countP PollTask.live = 0 := by
      rw [liveTasks_eq, hsplit, List.countP_append, List.countP_cons] at hle
      simp [PollTask.live] at hle
      omega
    have hz2 : liveTasks (taskCrash s tid msg) = 0 := by
      rw [liveTasks_eq]
      simp only [taskCrash]
      rw [hmap, List.countP_append, List.countP_cons]
      simp [PollTask.live, hcounts.1, hcounts.2]
    constructor
    · constructor
      · intro t ht
        simp only [taskCrash] at ht
        rw [hmap] at ht
        show t.tid < s.nextTid
        rcases List.mem_append.mp ht with h1 | h1
        · exact hbound t (by rw [hsplit]; exact List.mem_append_left _ h1)
        · rcases List.mem_cons.mp h1 with h2 | h2
          · rw [h2]
            exact hbound (⟨tid, .looping⟩ : PollTask)
              (by rw [hsplit]; exact List.mem_append_right _ (List.mem_cons_self _ _))
          · exact hbound t (by rw [hsplit]; exact List.mem_append_right _ (List.mem_cons_of_mem _ h2))
      · show ((taskCrash s _ _).tasks.map PollTask.tid).Nodup
        simp only [taskCrash]
        rw [hmap]
        rw [hsplit] at hnd
        simpa using hnd
    refine ⟨by omega, fun _ => hz2, ?_⟩
    · intro t ht hl
      have hdead3 := countP_zero_false _ _ (by rw [liveTasks_eq] at hz2; exact hz2) t ht
      rw [hdead3] at hl
      cases hl
  | @finish tid hmem =>
    obtain ⟨l1, l2, hsplit, hl1, hl2, hmap⟩ :=
      update_status_split s.tasks tid .looping .taskDone hmem hnd
    have hcounts : l1.countP PollTask.live = 0 ∧ l2.countP PollTask.live = 0 := by
      rw [liveTasks_eq, hsplit, List.countP_append, List.countP_cons] at hle
      simp [PollTask.live] at hle
      omega
    have hz2 : liveTasks (taskFinish s tid) = 0 := by
      rw [liveTasks_eq]
      simp only [taskFinish]
      rw [hmap, List.countP_append, List.countP_cons]
      simp [PollTask.live, hcounts.1, hcounts.2]
    constructor
    · constructor
      · intro t ht
        simp only [taskFinish] at ht
        rw [hmap] at ht
        show t.tid < s.nextTid
        rcases List.mem_append.mp ht with h1 | h1
        · exact hbound t (by rw [hsplit]; exact List.mem_append_left _ h1)
        · rcases List.mem_cons.mp h1 with h2 | h2
          · rw [h2]
            exact hbound (⟨tid, .looping⟩ : PollTask)
              (by rw [hsplit]; exact List.mem_append_right _ (List.mem_cons_self _ _))
          · exact hbound t (by rw [hsplit]; exact List.mem_append_right _ (List.mem_cons_of_mem _ h2))
      · show ((taskFinish s _).tasks.map PollTask.tid).Nodup
        simp only [taskFinish]
        rw [hmap]
        rw [hsplit] at hnd
        simpa using hnd
    refine ⟨by omega, fun _ => hz2, ?_⟩
    · intro t ht hl
      have hdead3 := countP_zero_false _ _ (by rw [liveTasks_eq] at hz2; exact hz2) t ht
      rw [hdead3] at hl
      cases hl

theorem guarded_ginv (m : BotMode) (s : BotSys) (h : GuardedReachable m s) : GInv s := by
  unfold GuardedReachable at h
  induction h with
  | refl => exact ginv_init m
  | tail _ hstep ih => exact ginv_preserved hstep ih

/-! ## C3: lifecycle invariants -/

/-- C3 (amended): in every reachable manager state, started_at is non-nil
whenever state = running (it is set on the transition to running but never
cleared, so it can stay set after the bot leaves running); a successful
stop_bot clears polling_task (although a loop that exits on its own leaves
the finished task referenced); and at most one live update-loop task exists
at any instant provided start_bot is invoked only from the stopped and
error states, as the specified state machine prescribes. -/
theorem managed_bot_lifecycle_invariants (m : BotMode) (s : BotSys) :
    (BotReachable m s → s.bot.state = .running → s.bot.started_at ≠ none) ∧
    (∀ s2 : BotSys, stop_bot s true = (none, s2) → s2.bot.polling_task = none) ∧
    (GuardedReachable m s → liveTasks s ≤ 1) := by
  refine ⟨reachable_running_started m s, ?_, ?_⟩
  · intro s2 h
    obtain ⟨hg, htasks, hnext, hbot⟩ := stop_bot_ok _ _ _ h
    rcases hbot with ⟨hc, hbot⟩ | ⟨hc, hbot⟩
    · rw [hbot]
    · cases hc
  · intro h
    exact (guarded_ginv m s h).2.1

/-- C3 counterexample: starting then stopping a webhook bot leaves
state = stopped with started_at still set (refuting started_at non-nil iff
running), and two start_bot calls on a polling bot before its task first
runs leave two live update-loop tasks (refuting at most one task ever). -/
theorem managed_bot_invariant_fails :
    ((stop_bot (start_bot (initBotSys .webhook) 5).2 true).2.bot.state = BState.stopped ∧
     (stop_bot (start_bot (initBotSys .webhook) 5).2 true).2.bot.started_at = some 5) ∧
    liveTasks (start_bot (start_bot (initBotSys .polling) 3).2 4).2 = 2 := by decide

/-- Witness for C3 at concrete reachable states: a started webhook bot is
running with started_at set, and stopping it clears polling_task; the
freshly created polling bot trivially satisfies the guarded task bound. -/
theorem managed_bot_lifecycle_invariants_witness :
    (start_bot (initBotSys .webhook) 5).2.bot.started_at ≠ none ∧
    (stop_bot (start_bot (initBotSys .webhook) 5).2 true).2.bot.polling_task = none ∧
    liveTasks (initBotSys .polling) ≤ 1 := by
  have h := managed_bot_lifecycle_invariants BotMode.webhook (start_bot (initBotSys .webhook) 5).2
  have heq : start_bot (initBotSys BotMode.webhook) 5 =
      (none, (start_bot (initBotSys BotMode.webhook) 5).2) := by decide
  have hreach : BotReachable BotMode.webhook (start_bot (initBotSys .webhook) 5).2 :=
    Relation.ReflTransGen.single (BotStep.start heq)
  have h2 := managed_bot_lifecycle_invariants BotMode.polling (initBotSys .polling)
  exact ⟨h.1 hreach (by decide), h.2.1 _ (by decide), h2.2.2 Relation.ReflTransGen.refl⟩

/-! ## C7: token bucket admission bound -/

theorem consume_step (b : RateLimitBucket) (t : ℚ) :
    ((if (b.consume t 1).2 then (1 : ℚ) else 0) + (b.consume t 1).1.tokens
        = min ((b.burst : ℚ)) (b.tokens + (t - b.last_update) * b.rate)) ∧
    (b.consume t 1).1.last_update = t ∧
    (b.consume t 1).1.rate = b.rate ∧
    (b.consume t 1).1.burst = b.burst ∧
    (0 ≤ b.tokens → 0 ≤ b.rate → 0 ≤ (b.burst : ℚ) → b.last_update ≤ t →
      0 ≤ (b.consume t 1).1.tokens) := by
  simp only [RateLimitBucket.consume, Nat.cast_one]
  by_cases h : (1 : ℚ) ≤ min ((b.burst : ℚ)) (b.tokens + (t - b.last_update) * b.rate)
  · rw [if_pos h]
    refine ⟨?_, rfl, rfl, rfl, ?_⟩
    · simp only [if_true]
      ring
    · intro _ _ _ _
      simp only
      linarith
  · rw [if_neg h]
    refine ⟨?_, rfl, rfl, rfl, ?_⟩
    · simp
    · intro htok hrate hburst hle
      simp only
      exact le_min hburst (by nlinarith [mul_nonneg (sub_nonneg.mpr hle) hrate])

theorem runBucket_le (times : List ℚ) : ∀ (b : RateLimitBucket) (tEnd : ℚ),
    0 ≤ b.rate → 0 ≤ (b.burst : ℚ) → 0 ≤ b.tokens →
    b.last_update ≤ tEnd →
    List.Pairwise (fun x y => x ≤ y) (b.last_update :: times) →
    (∀ t ∈ times, t ≤ tEnd) →
    (((runBucket b times).2 : ℚ)) ≤ b.tokens + b.rate * (tEnd - b.last_update) := by
  induction times with
  | nil =>
    intro b tEnd hrate hburst htok hlu _ _
    simp only [runBucket, Nat.cast_zero]
    nlinarith [mul_nonneg hrate (sub_nonneg.mpr hlu)]
  | cons t ts ih =>
    intro b tEnd hrate hburst htok hlu hsort hbnd
    obtain ⟨hstep, hlu2, hrate2, hburst2, hpos⟩ := consume_step b t
    have hle_t : b.last_update ≤ t := (List.pairwise_cons.mp hsort).1 t (by simp)
    have htEnd : t ≤ tEnd := hbnd t (by simp)
    have hsort2 : List.Pairwise (fun x y => x ≤ y) (t :: ts) := (List.pairwise_cons.mp hsort).2
    have hb' := ih (b.consume t 1).1 tEnd (by rw [hrate2]; exact hrate)
      (by rw [hburst2]; exact hburst) (hpos htok hrate hburst hle_t)
      (by rw [hlu2]; exact htEnd)
      (by rw [hlu2]; exact hsort2)
      (fun x hx => hbnd x (List.mem_cons_of_mem _ hx))
    have hrun : (runBucket b (t :: ts)).2
        = (if (b.consume t 1).2 then 1 else 0) + (runBucket (b.consume t 1).1 ts).2 := rfl
    rw [hrun]
    have hcast : (((if (b.consume t 1).2 then 1 else 0) +
        (runBucket (b.consume t 1).1 ts).2 : Nat) : ℚ)
        = (if (b.consume t 1).2 then (1 : ℚ) else 0) +
          ((runBucket (b.consume t 1).1 ts).2 : ℚ) := by
      cases (b.consume t 1).2 <;> push_cast <;> ring
    rw [hcast]
    rw [hrate2, hlu2] at hb'
    have hmin : min ((b.burst : ℚ)) (b.tokens + (t - b.last_update) * b.rate)
        ≤ b.tokens + (t - b.last_update) * b.rate := min_le_right _ _
    have hring : b.rate * (tEnd - t) + (t - b.last_update) * b.rate
        = b.rate * (tEnd - b.last_update) := by ring
    linarith

/-- C7: under the bucket's refill rule (tokens becomes the minimum of burst
and tokens + elapsed * rate, then a request is admitted and charged exactly
when at least one token remains), the number of admitted requests over any
interval of length T at least 1/rate is at most burst + rate * T, for any
bucket state reachable at the window start (tokens nonnegative and rate,
burst positive); and with burst = 1 and rate = 1 per second a fresh bucket
admits exactly one request immediately, and a second request is admitted
precisely when at least 1 second has elapsed. -/
theorem rate_limit_admission_bound (b : RateLimitBucket) (times : List ℚ) (w T : ℚ)
    (hrate : 0 < b.rate) (hT : 1 / b.rate ≤ T) (hburst : 0 ≤ (b.burst : ℚ))
    (htok : 0 ≤ b.tokens)
    (hsorted : List.Pairwise (fun x y => x ≤ y) times)
    (hwin : ∀ t ∈ times, w ≤ t ∧ t ≤ w + T)
    (hlu : ∀ t ∈ times, b.last_update ≤ t) :
    (((runBucket b times).2 : ℚ)) ≤ (b.burst : ℚ) + b.rate * T ∧
    (∀ t0 e : ℚ, 0 ≤ e →
      ((freshBucket 1 1 t0).consume t0 1).2 = true ∧
      ((((freshBucket 1 1 t0).consume t0 1).1.consume (t0 + e) 1).2 = true ↔ 1 ≤ e)) := by
  constructor
  · have hTpos : 0 < T := lt_of_lt_of_le (by positivity) hT
    cases times with
    | nil =>
      simp only [runBucket, Nat.cast_zero]
      nlinarith
    | cons t ts =>
      obtain ⟨hstep, hlu2, hrate2, hburst2, hpos⟩ := consume_step b t
      have hle_t : b.last_update ≤ t := hlu t (by simp)
      have hwt := hwin t (by simp)
      have hb' := runBucket_le ts (b.consume t 1).1 (w + T) (by rw [hrate2]; exact le_of_lt hrate)
        (by rw [hburst2]; exact hburst)
        (hpos htok (le_of_lt hrate) hburst hle_t)
        (by rw [hlu2]; exact hwt.2)
        (by rw [hlu2]; exact hsorted)
        (fun x hx => (hwin x (List.mem_cons_of_mem _ hx)).2)
      have hrun : (runBucket b (t :: ts)).2
          = (if (b.consume t 1).2 then 1 else 0) + (runBucket (b.consume t 1).1 ts).2 := rfl
      rw [hrun]
      have hcast : (((if (b.consume t 1).2 then 1 else 0) +
          (runBucket (b.consume t 1).1 ts).2 : Nat) : ℚ)
          = (if (b.consume t 1).2 then (1 : ℚ) else 0) +
            ((runBucket (b.consume t 1).1 ts).2 : ℚ) := by
        cases (b.consume t 1).2 <;> push_cast <;> ring
      rw [hcast]
      rw [hrate2, hlu2] at hb'
      have hmin : min ((b.burst : ℚ)) (b.tokens + (t - b.last_update) * b.rate)
          ≤ (b.burst : ℚ) := min_le_left _ _
      have hmul : b.rate * (w + T - t) ≤ b.rate * T :=
        mul_le_mul_of_nonneg_left (by linarith [hwt.1]) (le_of_lt hrate)
      linarith
  · intro t0 e he
    constructor
    · norm_num [freshBucket, RateLimitBucket.consume]
    · by_cases h1e : (1 : ℚ) ≤ e
      · simp only [freshBucket, RateLimitBucket.consume, Nat.cast_one]
        norm_num [h1e]
      · simp only [freshBucket, RateLimitBucket.consume, Nat.cast_one]
        norm_num [h1e]

/-- Witness for C7: a bucket with rate 1, burst 2 and two tokens sees three
simultaneous requests inside a window of length 1 and admits at most
2 + 1 * 1 of them; a fresh burst-1 bucket admits its first request. -/
theorem rate_limit_admission_bound_witness :
    (((runBucket { tokens := 2, last_update := 0, rate := 1, burst := 2 } [0, 0, 0]).2 : ℚ))
      ≤ (((2 : Int) : ℚ)) + 1 * 1 ∧
    ((freshBucket 1 1 0).consume 0 1).2 = true := by
  have h := rate_limit_admission_bound
    { tokens := 2, last_update := 0, rate := 1, burst := 2 }
    [0, 0, 0] 0 1 (by norm_num) (by norm_num) (by norm_num) (by norm_num)
    (by norm_num [List.pairwise_cons, List.forall_mem_cons])
    (by norm_num [List.forall_mem_cons])
    (by norm_num [List.forall_mem_cons])
  exact ⟨h.1, (h.2 0 0 (by norm_num)).1⟩

/-! ## C5: webhook secret verification -/

/-- C5 (amended): for a webhook POST that has passed the unknown-bot (404)
and not-running (503) checks, with a global shared secret configured, the
X-Telegram-Bot-Api-Secret-Token header is compared (by hmac.compare_digest,
a constant-time comparison whose value is string equality) against the
per-bot secret derived as the SHA-256 hex digest of global_secret:bot_id
truncated to 32 characters - not an HMAC - and the request is answered 401
exactly when that comparison fails. -/
theorem webhook_secret_check (secret : String) (bots : List (String × BState))
    (req : WebhookRequest) (bid : String)
    (hsec : secret ≠ "") (hbid : req.bot_id = some bid) (hne : ¬ bid = "")
    (hrun : (bots.find? (fun p => p.1 == bid)).map Prod.snd = some BState.running) :
    (webhook_handler secret (some bots) req = 401 ↔
      req.headerToken.getD "" ≠
        (hexDigest (sha256Bytes (strBytes (secret ++ ":" ++ bid)))).take 32) := by
  have hexp : get_bot_secret secret bid =
      (hexDigest (sha256Bytes (strBytes (secret ++ ":" ++ bid)))).take 32 := by
    unfold get_bot_secret
    rw [if_neg hsec]
  simp only [webhook_handler, hbid, hrun, if_neg hne]
  rw [if_neg (by simp : ¬ BState.running ≠ BState.running)]
  unfold verify_secret
  rw [if_neg hsec, hexp]
  by_cases hm : req.headerToken.getD ""
      = (hexDigest (sha256Bytes (strBytes (secret ++ ":" ++ bid)))).take 32
  · have hbeq : (req.headerToken.getD ""
        == (hexDigest (sha256Bytes (strBytes (secret ++ ":" ++ bid)))).take 32) = true :=
      beq_iff_eq.mpr hm
    cases hbody : req.bodyOk <;> simp [hbeq, hm, hbody]
  · have hb : (req.headerToken.getD ""
        == (hexDigest (sha256Bytes (strBytes (secret ++ ":" ++ bid)))).take 32) = false :=
      beq_eq_false_iff_ne.mpr hm
    simp [hb, hm]

/-- C5 counterexample: the per-bot secret is the truncated SHA-256 hex of
"secret:bot_id", not HMAC-SHA256(secret, bot_id); for global secret s and
bot id b the two derivations differ, and a request for the known, running
bot b whose header carries the HMAC-derived value is answered 401. -/
theorem webhook_secret_not_hmac :
    (hexDigest (hmacSha256 (strBytes "s") (strBytes "b"))).take 32 ≠
      get_bot_secret "s" "b" ∧
    webhook_handler "s" (some [("b", BState.running)])
      { bot_id := some "b"
        headerToken := some ((hexDigest (hmacSha256 (strBytes "s") (strBytes "b"))).take 32)
        bodyOk := true } = 401 := by
  set_option maxRecDepth 1000000 in decide

set_option maxRecDepth 1000000 in
/-- Witness for C5: a request carrying the correctly derived header for the
running bot b is not answered 401. -/
theorem webhook_secret_check_witness :
    webhook_handler "s" (some [("b", BState.running)])
      { bot_id := some "b", headerToken := some (get_bot_secret "s" "b"), bodyOk := true }
      ≠ 401 := by
  have h := webhook_secret_check "s" [("b", BState.running)]
    { bot_id := some "b", headerToken := some (get_bot_secret "s" "b"), bodyOk := true }
    "b" (by decide) rfl (by decide) (by decide)
  intro hc
  exact (h.mp hc) rfl

/-! ## C6: dependency resolution lemmas -/

theorem visitList_visiting (reg : PluginRegistry) :
    ∀ (fuel : Nat) (names : List String) (st st2 : RState),
    visitList reg fuel names st = .ok st2 → st2.visiting = st.visiting := by
  intro fuel
  induction fuel with
  | zero =>
    intro names st st2 h
    simp [visitList] at h
  | succ fuel ih =>
    intro names st st2 h
    cases names with
    | nil =>
      simp only [visitList] at h
      injection h with h2
      rw [← h2]
    | cons name rest =>
      rw [visitList] at h
      by_cases h1 : name ∈ st.resolved
      · rw [if_pos h1] at h
        exact ih rest st st2 h
      · rw [if_neg h1] at h
        by_cases h2 : name ∈ st.visiting
        · rw [if_pos h2] at h
          cases h
        · rw [if_neg h2] at h
          split at h
          · cases h
          · next ds hl =>
            split at h
            · cases h
            · next stm hm =>
              have hv := ih ds { st with visiting := name :: st.visiting } stm hm
              have hv2 := ih rest _ _ h
              rw [hv2]
              simp only [hv]
              exact List.erase_cons_head name st.visiting

theorem orderedClosed_nil (reg : PluginRegistry) : OrderedClosed reg [] := by
  intro l1 n l2 heq
  exact absurd heq.symm (List.append_ne_nil_of_right_ne_nil l1 (by simp))

theorem orderedClosed_append (reg : PluginRegistry) (l : List String) (n : String)
    (ds : List String) (h : OrderedClosed reg l) (hds : lookupDeps reg n = some ds)
    (hsub : ∀ d ∈ ds, d ∈ l) : OrderedClosed reg (l ++ [n]) := by
  intro l1 m l2 heq
  rcases List.eq_nil_or_concat l2 with rfl | ⟨l2x, x, rfl⟩
  · obtain ⟨he1, he2⟩ := List.append_inj' heq (by simp)
    have hmn : m = n := by
      injection he2 with h1 _
      exact h1.symm
    subst hmn
    subst he1
    exact ⟨ds, hds, hsub⟩
  · have heq2 : l ++ [n] = (l1 ++ m :: l2x) ++ [x] := by
      rw [heq]
      simp
    obtain ⟨he1, he2⟩ := List.append_inj' heq2 (by simp)
    exact h l1 m l2x he1

theorem visitList_ok_props (reg : PluginRegistry) (roots : List String) :
    ∀ (fuel : Nat) (names : List String) (st st2 : RState),
    visitList reg fuel names st = .ok st2 →
    (∀ n ∈ names, ReachableFrom reg roots n) →
    (∀ n ∈ st.resolved, ReachableFrom reg roots n) →
    (∃ d, st2.resolved = st.resolved ++ d) ∧
    (∀ n ∈ names, n ∈ st2.resolved) ∧
    (∀ n ∈ st2.resolved, ReachableFrom reg roots n) ∧
    (OrderedClosed reg st.resolved → OrderedClosed reg st2.resolved) := by
  intro fuel
  induction fuel with
  | zero =>
    intro names st st2 h
    simp [visitList] at h
  | succ fuel ih =>
    intro names st st2 h hnames hres
    cases names with
    | nil =>
      simp only [visitList] at h
      injection h with h2
      subst h2
      exact ⟨⟨[], by simp⟩, by simp, hres, fun hoc => hoc⟩
    | cons name rest =>
      rw [visitList] at h
      by_cases h1 : name ∈ st.resolved
      · rw [if_pos h1] at h
        obtain ⟨⟨d, hd⟩, hmem, hreach, hoc⟩ :=
          ih rest st st2 h (fun n hn => hnames n (List.mem_cons_of_mem _ hn)) hres
        refine ⟨⟨d, hd⟩, ?_, hreach, hoc⟩
        intro n hn
        rcases List.mem_cons.mp hn with rfl | hn2
        · rw [hd]
          exact List.mem_append_left _ h1
        · exact hmem n hn2
      · rw [if_neg h1] at h
        by_cases h2 : name ∈ st.visiting
        · rw [if_pos h2] at h
          cases h
        · rw [if_neg h2] at h
          split at h
          · cases h
          · next ds hl =>
            split at h
            · cases h
            · next stm hm =>
              have hreach_name : ReachableFrom reg roots name :=
                hnames name (List.mem_cons_self _ _)
              have hreach_ds : ∀ d ∈ ds, ReachableFrom reg roots d := by
                intro d hd
                exact ReachableFrom.step hreach_name ⟨ds, hl, hd⟩
              obtain ⟨⟨d1, hd1⟩, hmem1, hreach1, hoc1⟩ :=
                ih ds { st with visiting := name :: st.visiting } stm hm hreach_ds hres
              have hreach_mid : ∀ n ∈ stm.resolved ++ [name], ReachableFrom reg roots n := by
                intro n hn
                rcases List.mem_append.mp hn with hn1 | hn1
                · exact hreach1 n hn1
                · rw [List.mem_singleton.mp hn1]
                  exact hreach_name
              obtain ⟨⟨d2, hd2⟩, hmem2, hreach2, hoc2⟩ :=
                ih rest { resolved := stm.resolved ++ [name], visiting := stm.visiting.erase name }
                  st2 h (fun n hn => hnames n (List.mem_cons_of_mem _ hn)) hreach_mid
              simp only at hd2
              constructor
              · exact ⟨d1 ++ [name] ++ d2, by rw [hd2, hd1]; simp⟩
              refine ⟨?_, hreach2, ?_⟩
              · intro n hn
                rcases List.mem_cons.mp hn with rfl | hn2
                · rw [hd2]
                  exact List.mem_append_left _ (List.mem_append_right _ (by simp))
                · exact hmem2 n hn2
              · intro hoc
                exact hoc2 (orderedClosed_append reg stm.resolved name ds (hoc1 hoc) hl hmem1)

theorem visitList_err (reg : PluginRegistry) (roots : List String) :
    ∀ (fuel : Nat) (names : List String) (st : RState) (e : ResolveErr),
    visitList reg fuel names st = .error e →
    (∀ n ∈ names, ReachableFrom reg roots n) →
    (∃ m, e = .cycle m) ∨
    (∃ u, e = .notFound u ∧ ReachableFrom reg roots u ∧ lookupDeps reg u = none) ∨
    e = .fuelOut := by
  intro fuel
  induction fuel with
  | zero =>
    intro names st e h _
    simp only [visitList] at h
    injection h with h2
    exact .inr (.inr h2.symm)
  | succ fuel ih =>
    intro names st e h hnames
    cases names with
    | nil =>
      simp only [visitList] at h
      cases h
    | cons name rest =>
      rw [visitList] at h
      by_cases h1 : name ∈ st.resolved
      · rw [if_pos h1] at h
        exact ih rest st e h (fun n hn => hnames n (List.mem_cons_of_mem _ hn))
      · rw [if_neg h1] at h
        by_cases h2 : name ∈ st.visiting
        · rw [if_pos h2] at h
          injection h with h3
          exact .inl ⟨name, h3.symm⟩
        · rw [if_neg h2] at h
          split at h
          · next hl =>
            injection h with h3
            exact .inr (.inl ⟨name, h3.symm, hnames name (List.mem_cons_self _ _), hl⟩)
          · next ds hl =>
            have hreach_ds : ∀ d ∈ ds, ReachableFrom reg roots d := by
              intro d hd
              exact ReachableFrom.step (hnames name (List.mem_cons_self _ _)) ⟨ds, hl, hd⟩
            split at h
            · next e2 hm =>
              injection h with h3
              subst h3
              exact ih ds _ e2 hm hreach_ds
            · next stm hm =>
              exact ih rest _ e h (fun n hn => hnames n (List.mem_cons_of_mem _ hn))

theorem registered_mem_keys (reg : PluginRegistry) (n : String)
    (h : (lookupDeps reg n).isSome) : n ∈ reg.map Prod.fst := by
  unfold lookupDeps dictGet at h
  cases hf : reg.find? (fun p => p.1 == n) with
  | none =>
    rw [hf] at h
    simp at h
  | some p =>
    have hmem := List.mem_of_find?_eq_some hf
    have hp := List.find?_some hf
    have hpn : p.1 = n := by simpa using hp
    rw [← hpn]
    exact List.mem_map_of_mem Prod.fst hmem

theorem visiting_length_le (reg : PluginRegistry) (l : List String)
    (hnd : l.Nodup) (hreg : ∀ v ∈ l, (lookupDeps reg v).isSome) :
    l.length ≤ reg.length := by
  have hsub : l.toFinset ⊆ (reg.map Prod.fst).toFinset := by
    intro x hx
    rw [List.mem_toFinset] at hx ⊢
    exact registered_mem_keys reg x (hreg x hx)
  have h1 : l.toFinset.card = l.length := List.toFinset_card_of_nodup hnd
  have h2 := Finset.card_le_card hsub
  have h3 := List.toFinset_card_le (reg.map Prod.fst)
  rw [List.length_map] at h3
  omega

theorem le_foldr_max (l : List Nat) (x : Nat) (h : x ∈ l) : x ≤ l.foldr max 0 := by
  induction l with
  | nil => cases h
  | cons a t ih =>
    rcases List.mem_cons.mp h with rfl | h2
    · exact le_max_left _ _
    · exact le_trans (ih h2) (le_max_right _ _)

theorem lookupDeps_length_le (reg : PluginRegistry) (n : String) (ds : List String)
    (h : lookupDeps reg n = some ds) :
    ds.length ≤ (reg.map (fun p => p.2.dependencies.length)).foldr max 0 := by
  unfold lookupDeps dictGet at h
  cases hf : reg.find? (fun p => p.1 == n) with
  | none =>
    rw [hf] at h
    cases h
  | some p =>
    rw [hf] at h
    simp at h
    have hmem := List.mem_of_find?_eq_some hf
    have hin : p.2.dependencies.length ∈ reg.map (fun q => q.2.dependencies.length) :=
      List.mem_map_of_mem _ hmem
    rw [← h]
    exact le_foldr_max _ _ hin

theorem visitList_fuel (reg : PluginRegistry) (L : Nat)
    (hL : ∀ n ds, lookupDeps reg n = some ds → ds.length ≤ L) :
    ∀ (fuel : Nat) (names : List String) (st : RState),
    st.visiting.Nodup →
    (∀ v ∈ st.visiting, (lookupDeps reg v).isSome) →
    names.length + 1 + (reg.length - st.visiting.length) * (L + 2) ≤ fuel →
    visitList reg fuel names st ≠ .error .fuelOut := by
  intro fuel
  induction fuel with
  | zero =>
    intro names st _ _ hf
    omega
  | succ fuel ih =>
    intro names st hnd hregv hf
    cases names with
    | nil =>
      simp [visitList]
    | cons name rest =>
      rw [visitList]
      by_cases h1 : name ∈ st.resolved
      · rw [if_pos h1]
        apply ih rest st hnd hregv
        generalize (reg.length - st.visiting.length) * (L + 2) = W at hf ⊢
        simp only [List.length_cons] at hf
        omega
      · rw [if_neg h1]
        by_cases h2 : name ∈ st.visiting
        · rw [if_pos h2]
          simp
        · rw [if_neg h2]
          split
          · simp
          · next ds hl =>
            have hname_reg : (lookupDeps reg name).isSome := by
              rw [hl]
              rfl
            have hnd' : (name :: st.visiting).Nodup := List.nodup_cons.mpr ⟨h2, hnd⟩
            have hregv' : ∀ v ∈ name :: st.visiting, (lookupDeps reg v).isSome := by
              intro v hv
              rcases List.mem_cons.mp hv with rfl | hv2
              · exact hname_reg
              · exact hregv v hv2
            have hvK : st.visiting.length + 1 ≤ reg.length := by
              have := visiting_length_le reg (name :: st.visiting) hnd' hregv'
              simpa using this
            have hdsL : ds.length ≤ L := hL name ds hl
            have hprod : (reg.length - st.visiting.length) * (L + 2)
                = (L + 2) + (reg.length - st.visiting.length - 1) * (L + 2) := by
              have hKv : reg.length - st.visiting.length
                  = (reg.length - st.visiting.length - 1) + 1 := by omega
              generalize hX : reg.length - st.visiting.length - 1 = X at hKv ⊢
              rw [hKv]
              ring
            have hfuel_ds : ds.length + 1 +
                (reg.length - (name :: st.visiting).length) * (L + 2) ≤ fuel := by
              simp only [List.length_cons]
              have hsub : reg.length - (st.visiting.length + 1)
                  = reg.length - st.visiting.length - 1 := by omega
              rw [hsub]
              rw [hprod] at hf
              generalize (reg.length - st.visiting.length - 1) * (L + 2) = W at hf ⊢
              simp only [List.length_cons] at hf
              omega
            split
            · next e2 hm =>
              intro hc
              injection hc with he
              subst he
              exact ih ds { st with visiting := name :: st.visiting } hnd' hregv' hfuel_ds hm
            · next stm hm =>
              have hvis := visitList_visiting reg fuel ds _ stm hm
              simp only at hvis
              apply ih rest
              · show (stm.visiting.erase name).Nodup
                rw [hvis, List.erase_cons_head]
                exact hnd
              · show ∀ v ∈ stm.visiting.erase name, (lookupDeps reg v).isSome
                rw [hvis, List.erase_cons_head]
                exact hregv
              · show rest.length + 1 +
                  (reg.length - (stm.visiting.erase name).length) * (L + 2) ≤ fuel
                rw [hvis, List.erase_cons_head]
                generalize (reg.length - st.visiting.length) * (L + 2) = W at hf ⊢
                simp only [List.length_cons] at hf
                omega

theorem indexOf_le_of_getElem {l : List String} {b : String} :
    ∀ {j : Nat} (hj : j < l.length), l[j] = b → l.indexOf b ≤ j := by
  induction l with
  | nil =>
    intro j hj
    exact absurd hj (by simp)
  | cons a t ih =>
    intro j hj h
    cases j with
    | zero =>
      simp at h
      rw [h]
      simp [List.indexOf_cons_self]
    | succ j =>
      by_cases hab : a = b
      · rw [List.indexOf_cons_eq _ hab]
        omega
      · rw [List.indexOf_cons_ne _ hab]
        have hj2 : j < t.length := by simpa using hj
        have h2 : t[j] = b := by simpa using h
        have := ih hj2 h2
        omega

theorem orderedClosed_topo (reg : PluginRegistry) (l : List String)
    (h : OrderedClosed reg l) : TopoOrdered reg l := by
  intro i hi
  have hdecomp : l = l.take i ++ l.get ⟨i, hi⟩ :: l.drop (i + 1) := by
    conv_lhs => rw [← List.take_append_drop i l]
    congr 1
    rw [List.drop_eq_getElem_cons hi]
    rfl
  obtain ⟨ds, hds, hsub⟩ := h (l.take i) _ _ hdecomp
  refine ⟨ds, hds, ?_⟩
  intro d hd
  have hdmem := hsub d hd
  obtain ⟨j, hj, hget⟩ := List.mem_iff_getElem.mp hdmem
  have hj2 : j < i := by
    rw [List.length_take] at hj
    exact (Nat.lt_min.mp hj).1
  have hjlen : j < l.length := by
    rw [List.length_take] at hj
    exact (Nat.lt_min.mp hj).2
  refine ⟨j, hjlen, hj2, ?_⟩
  show l[j] = d
  rw [← hget]
  exact (List.getElem_take l).symm

theorem orderedClosed_mem (reg : PluginRegistry) (l : List String)
    (h : OrderedClosed reg l) (n : String) (hn : n ∈ l) :
    ∃ ds, lookupDeps reg n = some ds ∧ ∀ d ∈ ds, d ∈ l := by
  obtain ⟨l1, l2, rfl⟩ := List.append_of_mem hn
  obtain ⟨ds, hds, hsub⟩ := h l1 n l2 rfl
  exact ⟨ds, hds, fun d hd => List.mem_append_left _ (hsub d hd)⟩

theorem edge_indexOf_lt (reg : PluginRegistry) (l : List String)
    (htopo : TopoOrdered reg l) (a b : String) (hedge : DepEdge reg a b) (ha : a ∈ l) :
    b ∈ l ∧ l.indexOf b < l.indexOf a := by
  have hia : l.indexOf a < l.length := List.indexOf_lt_length.mpr ha
  have hget : l.get ⟨l.indexOf a, hia⟩ = a := List.indexOf_get hia
  obtain ⟨ds, hds, hall⟩ := htopo (l.indexOf a) hia
  obtain ⟨ds2, hds2, hb⟩ := hedge
  rw [hget, hds2] at hds
  injection hds with hds3
  obtain ⟨j, hj, hlt, hgetj⟩ := hall b (hds3 ▸ hb)
  constructor
  · rw [← hgetj]
    exact List.get_mem l j hj
  · have hle := indexOf_le_of_getElem hj (show l[j] = b from hgetj)
    omega

theorem depPath_indexOf_lt (reg : PluginRegistry) (l : List String)
    (htopo : TopoOrdered reg l) (a b : String) (hpath : DepPath reg a b) :
    a ∈ l → b ∈ l ∧ l.indexOf b < l.indexOf a := by
  induction hpath with
  | single hedge =>
    intro ha
    exact edge_indexOf_lt reg l htopo _ _ hedge ha
  | cons hedge hpath2 ih =>
    intro ha
    obtain ⟨hb, hlt1⟩ := edge_indexOf_lt reg l htopo _ _ hedge ha
    obtain ⟨hc, hlt2⟩ := ih hb
    exact ⟨hc, lt_trans hlt2 hlt1⟩

theorem resolve_no_fuelOut (reg : PluginRegistry) (names : List String) :
    visitList reg (resolveFuel reg names) names { resolved := [], visiting := [] }
      ≠ .error .fuelOut := by
  apply visitList_fuel reg
    ((names.length :: reg.map (fun p => p.2.dependencies.length)).foldr max 0)
  · intro n ds h
    have h1 := lookupDeps_length_le reg n ds h
    have h2 : (reg.map (fun p => p.2.dependencies.length)).foldr max 0
        ≤ (names.length :: reg.map (fun p => p.2.dependencies.length)).foldr max 0 := by
      simp only [List.foldr_cons]
      exact le_max_right _ _
    omega
  · simp
  · simp
  · show names.length + 1 + (reg.length - 0) *
      ((names.length :: reg.map (fun p => p.2.dependencies.length)).foldr max 0 + 2)
      ≤ resolveFuel reg names
    rw [Nat.sub_zero]
    unfold resolveFuel
    have hmul : reg.length *
        ((names.length :: reg.map (fun p => p.2.dependencies.length)).foldr max 0 + 2)
        ≤ (reg.length + 1) *
          ((names.length :: reg.map (fun p => p.2.dependencies.length)).foldr max 0 + 2) :=
      Nat.mul_le_mul_right _ (by omega)
    omega

/-- C6 (amended): when resolve_dependencies succeeds it returns an ordering
of the requested plugins together with their transitive dependencies in
which every dependency appears at an index strictly smaller than every
plugin depending on it (so the reachable graph is then acyclic and fully
registered); when it fails, the error is either a cycle error naming a
plugin or PluginNotFound for a reachable unregistered name; a reachable
cycle or a reachable unregistered dependency always makes it fail - with a
cycle error guaranteed only when every reachable plugin is registered,
since DFS order decides which offending condition is reported first. -/
theorem resolve_dependencies_spec (reg : PluginRegistry) (names : List String) :
    (∀ l, resolve_dependencies reg names = .ok l →
      (∀ n ∈ names, n ∈ l) ∧ TopoOrdered reg l ∧
      (∀ n ∈ l, ReachableFrom reg names n) ∧
      (∀ n, ReachableFrom reg names n → n ∈ l ∧ (lookupDeps reg n).isSome) ∧
      ¬ (∃ n, ReachableFrom reg names n ∧ DepPath reg n n)) ∧
    (∀ e, resolve_dependencies reg names = .error e →
      (∃ m, e = .cycle m) ∨
      (∃ u, e = .notFound u ∧ ReachableFrom reg names u ∧ lookupDeps reg u = none)) ∧
    ((∃ n, ReachableFrom reg names n ∧ (DepPath reg n n ∨ lookupDeps reg n = none)) →
      ∃ e, resolve_dependencies reg names = .error e) ∧
    ((∃ n, ReachableFrom reg names n ∧ DepPath reg n n) →
      (∀ n, ReachableFrom reg names n → (lookupDeps reg n).isSome) →
      ∃ m, resolve_dependencies reg names = .error (.cycle m)) := by
  have hok : ∀ l, resolve_dependencies reg names = .ok l →
      (∀ n ∈ names, n ∈ l) ∧ TopoOrdered reg l ∧
      (∀ n ∈ l, ReachableFrom reg names n) ∧
      (∀ n, ReachableFrom reg names n → n ∈ l ∧ (lookupDeps reg n).isSome) ∧
      ¬ (∃ n, ReachableFrom reg names n ∧ DepPath reg n n) := by
    intro l hl
    unfold resolve_dependencies at hl
    cases hv : visitList reg (resolveFuel reg names) names { resolved := [], visiting := [] } with
    | error e =>
      rw [hv] at hl
      cases hl
    | ok st =>
      rw [hv] at hl
      injection hl with hl2
      obtain ⟨_, hmem, hreach, hoc⟩ := visitList_ok_props reg names _ names _ st hv
        (fun n hn => ReachableFrom.root hn) (by simp)
      have hocl : OrderedClosed reg l := by
        rw [← hl2]
        exact hoc (orderedClosed_nil reg)
      have htopo : TopoOrdered reg l := orderedClosed_topo reg l hocl
      have hlmem : ∀ n ∈ names, n ∈ l := by
        rw [← hl2]
        exact hmem
      have hlreach : ∀ n ∈ l, ReachableFrom reg names n := by
        rw [← hl2]
        exact hreach
      have hclosure : ∀ n, ReachableFrom reg names n → n ∈ l ∧ (lookupDeps reg n).isSome := by
        intro n hn
        induction hn with
        | @root n2 hr =>
          obtain ⟨ds, hds, _⟩ := orderedClosed_mem reg l hocl n2 (hlmem n2 hr)
          exact ⟨hlmem n2 hr, by rw [hds]; rfl⟩
        | @step m2 n2 hm hedge ih =>
          obtain ⟨hminl, _⟩ := ih
          obtain ⟨ds, hds, hsub⟩ := orderedClosed_mem reg l hocl m2 hminl
          obtain ⟨ds2, hds2, hn2⟩ := hedge
          rw [hds2] at hds
          injection hds with hds3
          have hn2l : n2 ∈ l := hsub n2 (hds3 ▸ hn2)
          obtain ⟨ds4, hds4, _⟩ := orderedClosed_mem reg l hocl n2 hn2l
          exact ⟨hn2l, by rw [hds4]; rfl⟩
      refine ⟨hlmem, htopo, hlreach, hclosure, ?_⟩
      rintro ⟨n, hreach2, hpath⟩
      obtain ⟨hnl, _⟩ := hclosure n hreach2
      obtain ⟨_, hlt⟩ := depPath_indexOf_lt reg l htopo n n hpath hnl
      omega
  have herr : ∀ e, resolve_dependencies reg names = .error e →
      (∃ m, e = .cycle m) ∨
      (∃ u, e = .notFound u ∧ ReachableFrom reg names u ∧ lookupDeps reg u = none) := by
    intro e he
    unfold resolve_dependencies at he
    cases hv : visitList reg (resolveFuel reg names) names { resolved := [], visiting := [] } with
    | error e2 =>
      rw [hv] at he
      injection he with he2
      subst he2
      rcases visitList_err reg names _ names _ e2 hv (fun n hn => ReachableFrom.root hn) with
        h | h | h
      · exact .inl h
      · exact .inr h
      · exact absurd (by rw [hv, h]) (resolve_no_fuelOut reg names)
    | ok st =>
      rw [hv] at he
      cases he
  have hfail : (∃ n, ReachableFrom reg names n ∧ (DepPath reg n n ∨ lookupDeps reg n = none)) →
      ∃ e, resolve_dependencies reg names = .error e := by
    rintro ⟨n, hreach, hcase⟩
    cases hres : resolve_dependencies reg names with
    | error e => exact ⟨e, rfl⟩
    | ok l =>
      exfalso
      obtain ⟨_, _, _, hclosure, hnocycle⟩ := hok l hres
      rcases hcase with hcycle | hmissing
      · exact hnocycle ⟨n, hreach, hcycle⟩
      · have := (hclosure n hreach).2
        rw [hmissing] at this
        cases this
  refine ⟨hok, herr, hfail, ?_⟩
  rintro ⟨n, hreach, hcycle⟩ hallreg
  obtain ⟨e, he⟩ := hfail ⟨n, hreach, .inl hcycle⟩
  rcases herr e he with ⟨m, rfl⟩ | ⟨u, rfl, hureach, humissing⟩
  · exact ⟨m, he⟩
  · have := hallreg u hureach
    rw [humissing] at this
    cases this

/-- C6 counterexample: in a registry where a depends on the unregistered u
and on c, and c depends on itself, the cycle at c is reachable from the
request [a], yet resolve_dependencies fails with PluginNotFound for u (DFS
reaches u first), not with a cycle error as the claim states. -/
theorem resolve_error_not_cycle :
    resolve_dependencies regCycleAndMissing ["a"] = .error (.notFound "u") ∧
    ReachableFrom regCycleAndMissing ["a"] "c" ∧
    DepPath regCycleAndMissing "c" "c" ∧
    (∀ m, ResolveErr.notFound "u" ≠ ResolveErr.cycle m) := by
  refine ⟨by decide, ?_, ?_, ?_⟩
  · have h1 : ReachableFrom regCycleAndMissing ["a"] "a" := ReachableFrom.root (by simp)
    have h2 : DepEdge regCycleAndMissing "a" "c" := ⟨["u", "c"], by decide, by simp⟩
    exact ReachableFrom.step h1 h2
  · have h3 : DepEdge regCycleAndMissing "c" "c" := ⟨["c"], by decide, by simp⟩
    exact DepPath.single h3
  · intro m h
    cases h

/-- Witness for C6: resolving [p] over the acyclic registry p depends on q
yields the list [q, p], which contains the request and is topologically
ordered. -/
theorem resolve_dependencies_spec_witness :
    (∀ n ∈ ["p"], n ∈ ["q", "p"]) ∧ TopoOrdered regAcyclic ["q", "p"] := by
  have h := (resolve_dependencies_spec regAcyclic ["p"]).1 ["q", "p"] (by decide)
  exact ⟨h.1, h.2.1⟩

end Multibot
